import Mathlib

/-!
# Verification of the composite-message codec

A shallow embedding of `composite-message/src/composite_message.c`, a
serialization library: a writer appends tagged values into a caller buffer and
a reader validates tags and recovers the values, normalizing endianness once
at construction.

Memory is modelled as `List Nat` of byte values; multi-byte loads and stores
are little-endian (the model fixes the host's native order to little-endian).
Machine integers are `Nat`/`Int`; `uint32` subtraction that may wrap is made
explicit (`sub32`) where the wrap is observable, and elsewhere the theorems
carry the invariants (`usedSize ≤ bufferSize`, `readSize ≤ totalSize`) under
which C's unsigned subtraction agrees with truncated `Nat` subtraction.
Out-of-range pointer dereferences that C cannot perform safely are modelled
with `Option` (reader construction) or are exhibited through cursor/offset
values that leave the declared region.
-/

namespace CompositeMessage

/-! ## Byte-level memory helpers -/

/-- Little-endian byte image of `v`, `w` bytes wide (`v` is truncated mod `2^(8*w)`,
as a C store of a `w`-byte integer does). -/
def toLE : Nat → Nat → List Nat
  | 0, _ => []
  | w + 1, v => (v % 256) :: toLE w (v / 256)

/-- Value of a little-endian byte list. -/
def fromLE : List Nat → Nat
  | [] => 0
  | b :: bs => b + 256 * fromLE bs

/-- Read `len` bytes starting at `off`; bytes outside the list read as 0
(they model unspecified adjacent memory). -/
def loadBytes (m : List Nat) (off len : Nat) : List Nat :=
  (List.range len).map fun i => m.getD (off + i) 0

/-- Write the bytes `bs` at offset `off` (C `memcpy` into the buffer; in-bounds
whenever the callers' space checks passed). -/
def storeBytes (buf : List Nat) (off : Nat) (bs : List Nat) : List Nat :=
  buf.take off ++ bs ++ buf.drop (off + bs.length)

/-- `uint32` subtraction, which wraps modulo `2^32`. -/
def sub32 (a b : Nat) : Nat :=
  (a + 4294967296 - b % 4294967296) % 4294967296

/-! ## Error codes and structs (`composite_message.h`) -/

def CM_ERROR_NONE : Nat := 0
def CM_ERROR_NO_ENDIAN : Nat := 1
def CM_ERROR_NO_SPACE : Nat := 2
def CM_ERROR_NO_VALUE : Nat := 3
def CM_ERROR_INVALID_ARG : Nat := 4

/-- `CompositeMessageWriter`: the caller buffer together with its declared
capacity, the append cursor and the sticky error field. -/
structure Writer where
  buffer : List Nat
  bufferSize : Nat
  usedSize : Nat
  firstError : Nat
deriving Repr, DecidableEq

/-- `CompositeMessageReader`: the message bytes, declared total size, read
cursor and sticky error field. -/
structure Reader where
  message : List Nat
  totalSize : Nat
  readSize : Nat
  firstError : Nat
deriving Repr, DecidableEq

/-! ## Tag codec

Constants from `composite_message.c` (`CM_TYPE_MASK`, `CM_TYPE_LEN_MASK`,
`CM_ARRAY`, `CM_VERSION`) and the scalar type codes, whose values are fixed
by the tag table documented in `composite_message.h` (bits 2..4 hold the type:
001 unsigned int, 010 signed int, 011 float/double, 100 bool, 101 char). -/

def CM_TYPE_UINT : Nat := 0x04
def CM_TYPE_INT : Nat := 0x08
def CM_TYPE_FLOAT : Nat := 0x0C
def CM_TYPE_BOOL : Nat := 0x10
def CM_TYPE_CHAR : Nat := 0x14

def CM_ARRAY : Nat := 0x40
def CM_VERSION : Nat := 0x83

def ENDIAN_MARK : Nat := 0x0709
def ENDIAN_INV_MARK : Nat := 0x0907

/-- `getTypeFlag`: OR the 2-bit length selector into the type code; 0 when the
length is not one of 1, 2, 4, 8. -/
def getTypeFlag (type len : Nat) : Nat :=
  if len = 2 then type ||| 0x01
  else if len = 4 then type ||| 0x02
  else if len = 8 then type ||| 0x03
  else if len ≠ 1 then 0
  else type

/-- `splitTypeFlag`, type component: `flag & CM_TYPE_MASK`. -/
def splitTypeFlagType (flag : Nat) : Nat := flag &&& 0x1C

/-- `splitTypeFlag`, length component: `1 << (flag & CM_TYPE_LEN_MASK)`. -/
def splitTypeFlagLen (flag : Nat) : Nat := 1 <<< (flag &&& 0x03)

/-- `isSingleValue`: `(flag >> 5) == 0 && flag > 0`. -/
def isSingleValue (flag : Nat) : Bool := flag >>> 5 == 0 && flag > 0

/-- `isArray`: `(flag >> 5) == 2`. -/
def isArray (flag : Nat) : Bool := flag >>> 5 == 2

/-- `isVersion`: `flag == CM_VERSION`. -/
def isVersion (flag : Nat) : Bool := flag == CM_VERSION

/-! ## Writer operations -/

/-- `ensureSpace`: no-op on a latched error; otherwise compares remaining
capacity (`bufferSize - usedSize`, which never wraps because
`usedSize ≤ bufferSize` is an invariant of every reachable writer) to `size`. -/
def ensureSpace (w : Writer) (size : Nat) : Writer × Bool :=
  if w.firstError ≠ CM_ERROR_NONE then (w, false)
  else if w.bufferSize - w.usedSize < size then
    ({ w with firstError := CM_ERROR_NO_SPACE }, false)
  else (w, true)

/-- `writeBytes`: `ensureSpace`, then `memcpy` `size` bytes of `data` at the
cursor and advance it. -/
def writeBytes (w : Writer) (data : List Nat) (size : Nat) : Writer × Bool :=
  match ensureSpace w size with
  | (w', false) => (w', false)
  | (w', true) =>
      ({ w' with
          buffer := storeBytes w'.buffer w'.usedSize (loadBytes data 0 size),
          usedSize := w'.usedSize + size }, true)

/-- `writeValue`: guard on the sticky error, ensure room for tag plus payload,
reject unsupported widths, then append the tag byte and the value bytes. -/
def writeValue (w : Writer) (val : List Nat) (len type : Nat) : Writer × Bool :=
  if w.firstError ≠ CM_ERROR_NONE then (w, false)
  else match ensureSpace w (1 + len) with
  | (w', false) => (w', false)
  | (w', true) =>
      let flag := getTypeFlag type len
      if flag = 0 then ({ w' with firstError := CM_ERROR_INVALID_ARG }, false)
      else
        writeBytes
          { w' with buffer := storeBytes w'.buffer w'.usedSize [flag],
                    usedSize := w'.usedSize + 1 } val len

/-- Two's-complement little-endian image of a signed value, `w` bytes wide. -/
def intToBytes (w : Nat) (v : Int) : List Nat :=
  toLE w (v % ((2 : Int) ^ (8 * w))).toNat

/-- Signed value of a little-endian byte image, `w` bytes wide. -/
def bytesToInt (w : Nat) (bs : List Nat) : Int :=
  let n := fromLE bs
  if n < 2 ^ (8 * w - 1) then (n : Int) else (n : Int) - 2 ^ (8 * w)

def cmWriteI8 (w : Writer) (i : Int) : Writer :=
  (writeValue w (intToBytes 1 i) 1 CM_TYPE_INT).1

def cmWriteU8 (w : Writer) (i : Nat) : Writer :=
  (writeValue w (toLE 1 i) 1 CM_TYPE_UINT).1

def cmWriteI16 (w : Writer) (i : Int) : Writer :=
  (writeValue w (intToBytes 2 i) 2 CM_TYPE_INT).1

def cmWriteU16 (w : Writer) (i : Nat) : Writer :=
  (writeValue w (toLE 2 i) 2 CM_TYPE_UINT).1

def cmWriteI32 (w : Writer) (i : Int) : Writer :=
  (writeValue w (intToBytes 4 i) 4 CM_TYPE_INT).1

def cmWriteU32 (w : Writer) (i : Nat) : Writer :=
  (writeValue w (toLE 4 i) 4 CM_TYPE_UINT).1

def cmWriteI64 (w : Writer) (i : Int) : Writer :=
  (writeValue w (intToBytes 8 i) 8 CM_TYPE_INT).1

def cmWriteU64 (w : Writer) (i : Nat) : Writer :=
  (writeValue w (toLE 8 i) 8 CM_TYPE_UINT).1

/-- `cmWriteF`: a `float` is carried by its 4-byte IEEE-754 object
representation (`memcpy` copies the bit pattern unchanged). -/
def cmWriteF (w : Writer) (bits : Nat) : Writer :=
  (writeValue w (toLE 4 bits) 4 CM_TYPE_FLOAT).1

/-- `cmWriteD`: a `double` is carried by its 8-byte IEEE-754 object
representation. -/
def cmWriteD (w : Writer) (bits : Nat) : Writer :=
  (writeValue w (toLE 8 bits) 8 CM_TYPE_FLOAT).1

def cmWriteBool (w : Writer) (b : Bool) : Writer :=
  (writeValue w [if b then 1 else 0] 1 CM_TYPE_BOOL).1

def cmWriteChar (w : Writer) (c : Nat) : Writer :=
  (writeValue w (toLE 1 c) 1 CM_TYPE_CHAR).1

/-- `cmWriteTypedArray`. The item-size and item-type guards run before the
sticky-error check, exactly as in the source; a char array stores one extra
NUL element and counts it. -/
def cmWriteTypedArray (w : Writer) (itemType itemSize : Nat)
    (data : List Nat) (itemCount : Nat) : Writer :=
  if itemSize > 0x08 ∨ itemSize = 0 then
    { w with firstError := CM_ERROR_INVALID_ARG }
  else if itemType > 0x14 ∨ itemType < 0x04 then
    { w with firstError := CM_ERROR_INVALID_ARG }
  else
    let flag := getTypeFlag (CM_ARRAY ||| itemType) itemSize
    let itemCount := if itemType = CM_TYPE_CHAR then itemCount + 1 else itemCount
    match ensureSpace w (1 + 4 + itemSize * itemCount) with
    | (w', false) => w'
    | (w', true) =>
        let w' := { w' with
          buffer := storeBytes w'.buffer w'.usedSize [flag],
          usedSize := w'.usedSize + 1 }
        let w' := (writeBytes w' (toLE 4 itemCount) 4).1
        if itemType = CM_TYPE_CHAR then
          let w' := (writeBytes w' data ((itemCount - 1) * itemSize)).1
          { w' with buffer := storeBytes w'.buffer w'.usedSize [0],
                    usedSize := w'.usedSize + 1 }
        else (writeBytes w' data (itemCount * itemSize)).1

/-- `cmWriteVersion`: a plain 4-byte unsigned write, then—only when it
succeeded—the tag byte just written is patched to `CM_VERSION`. -/
def cmWriteVersion (w : Writer) (ver : Nat) : Writer :=
  let w := cmWriteU32 w ver
  if w.firstError = CM_ERROR_NONE then
    { w with buffer := storeBytes w.buffer (w.usedSize - 4 - 1) [CM_VERSION] }
  else w

/-- `cmGetWriter`: bind a caller buffer; with capacity below 2 latch
`NO_SPACE`, otherwise store the native-order endianness marker. -/
def cmGetWriter (buffer : List Nat) (size : Nat) : Writer :=
  if size < 2 then
    { buffer := buffer, bufferSize := size, usedSize := 0,
      firstError := CM_ERROR_NO_SPACE }
  else
    { buffer := storeBytes buffer 0 (toLE 2 ENDIAN_MARK),
      bufferSize := size, usedSize := 2, firstError := CM_ERROR_NONE }

/-! ## Reader operations -/

/-- `checkValue`: sticky-error guard, then bounds and an exact tag-byte
comparison. -/
def checkValue (r : Reader) (type size : Nat) : Reader × Bool :=
  if r.firstError ≠ CM_ERROR_NONE then (r, false)
  else if r.readSize + 1 + size > r.totalSize ∨
      r.message.getD r.readSize 0 ≠ type then
    ({ r with firstError := CM_ERROR_NO_VALUE }, false)
  else (r, true)

/-- `readValue`: sticky-error guard; bounds check `totalSize - readSize < len`
(as written in the source—`len`, not `1 + len`); tag decomposition and exact
type/width match; then copy the payload and advance. On failure the out
parameter is untouched, modelled by `none`. -/
def readValue (r : Reader) (len type : Nat) : Reader × Option (List Nat) :=
  if r.firstError ≠ CM_ERROR_NONE then (r, none)
  else if r.totalSize - r.readSize < len then
    ({ r with firstError := CM_ERROR_NO_VALUE }, none)
  else
    let flag := r.message.getD r.readSize 0
    if splitTypeFlagType flag ≠ type ∨ len ≠ splitTypeFlagLen flag then
      ({ r with firstError := CM_ERROR_NO_VALUE }, none)
    else
      ({ r with readSize := r.readSize + 1 + len },
        some (loadBytes r.message (r.readSize + 1) len))

def cmReadI8 (r : Reader) : Reader × Int :=
  match readValue r 1 CM_TYPE_INT with
  | (r', none) => (r', 0)
  | (r', some bs) => (r', bytesToInt 1 bs)

def cmReadU8 (r : Reader) : Reader × Nat :=
  match readValue r 1 CM_TYPE_UINT with
  | (r', none) => (r', 0)
  | (r', some bs) => (r', fromLE bs)

def cmReadI16 (r : Reader) : Reader × Int :=
  match readValue r 2 CM_TYPE_INT with
  | (r', none) => (r', 0)
  | (r', some bs) => (r', bytesToInt 2 bs)

def cmReadU16 (r : Reader) : Reader × Nat :=
  match readValue r 2 CM_TYPE_UINT with
  | (r', none) => (r', 0)
  | (r', some bs) => (r', fromLE bs)

def cmReadI32 (r : Reader) : Reader × Int :=
  match readValue r 4 CM_TYPE_INT with
  | (r', none) => (r', 0)
  | (r', some bs) => (r', bytesToInt 4 bs)

def cmReadU32 (r : Reader) : Reader × Nat :=
  match readValue r 4 CM_TYPE_UINT with
  | (r', none) => (r', 0)
  | (r', some bs) => (r', fromLE bs)

def cmReadI64 (r : Reader) : Reader × Int :=
  match readValue r 8 CM_TYPE_INT with
  | (r', none) => (r', 0)
  | (r', some bs) => (r', bytesToInt 8 bs)

def cmReadU64 (r : Reader) : Reader × Nat :=
  match readValue r 8 CM_TYPE_UINT with
  | (r', none) => (r', 0)
  | (r', some bs) => (r', fromLE bs)

def cmReadF (r : Reader) : Reader × Nat :=
  match readValue r 4 CM_TYPE_FLOAT with
  | (r', none) => (r', 0)
  | (r', some bs) => (r', fromLE bs)

def cmReadD (r : Reader) : Reader × Nat :=
  match readValue r 8 CM_TYPE_FLOAT with
  | (r', none) => (r', 0)
  | (r', some bs) => (r', fromLE bs)

def cmReadBool (r : Reader) : Reader × Bool :=
  match readValue r 1 CM_TYPE_BOOL with
  | (r', none) => (r', false)
  | (r', some bs) => (r', bs.getD 0 0 ≠ 0)

def cmReadChar (r : Reader) : Reader × Nat :=
  match readValue r 1 CM_TYPE_CHAR with
  | (r', none) => (r', 0)
  | (r', some bs) => (r', fromLE bs)

/-- `cmPeekArraySize`: non-destructive on success; needs `1 + 4` bytes and the
array flag bit, else latches `NO_VALUE`. -/
def cmPeekArraySize (r : Reader) : Reader × Nat :=
  if r.firstError ≠ CM_ERROR_NONE then (r, 0)
  else if r.readSize + 1 + 4 > r.totalSize ∨
      (r.message.getD r.readSize 0) &&& CM_ARRAY = 0 then
    ({ r with firstError := CM_ERROR_NO_VALUE }, 0)
  else (r, fromLE (loadBytes r.message (r.readSize + 1) 4))

/-- `cmReadTypedArray`. Argument guards run before the sticky-error check, as
in the source. Returns the reader, the bytes copied to the caller's buffer and
the returned element count. Note the source checks `maxItems` against the
declared count but never checks the payload against `totalSize`. -/
def cmReadTypedArray (r : Reader) (itemType itemSize maxItems : Nat) :
    Reader × List Nat × Nat :=
  if itemSize > 0x08 ∨ itemSize = 0 then
    ({ r with firstError := CM_ERROR_INVALID_ARG }, [], 0)
  else if itemType > 0x14 ∨ itemType < 0x04 then
    ({ r with firstError := CM_ERROR_INVALID_ARG }, [], 0)
  else
    let flag := getTypeFlag (CM_ARRAY ||| itemType) itemSize
    match cmPeekArraySize r with
    | (r', arraySize) =>
      if r'.firstError ≠ CM_ERROR_NONE then (r', [], 0)
      else if r'.message.getD r'.readSize 0 ≠ flag then
        ({ r' with firstError := CM_ERROR_NO_VALUE }, [], 0)
      else if maxItems < arraySize then
        ({ r' with firstError := CM_ERROR_NO_SPACE }, [], 0)
      else
        let r'' := { r' with readSize := r'.readSize + 1 + 4 }
        (({ r'' with readSize := r''.readSize + arraySize * itemSize }),
          loadBytes r''.message r''.readSize (arraySize * itemSize), arraySize)

/-- `cmPeekStringLength`: peek the array size, require a char element type and
a nonzero stored count, and report the count minus the NUL terminator. -/
def cmPeekStringLength (r : Reader) : Reader × Nat :=
  match cmPeekArraySize r with
  | (r', len) =>
    if r'.firstError ≠ CM_ERROR_NONE then (r', 0)
    else if splitTypeFlagType (r'.message.getD r'.readSize 0) ≠ CM_TYPE_CHAR ∨
        len = 0 then
      ({ r' with firstError := CM_ERROR_NO_VALUE }, 0)
    else (r', len - 1)

/-- `cmReadVersion`: `checkValue` against the fixed version tag and 4-byte
width, then an unaligned 4-byte load and a 5-byte advance. -/
def cmReadVersion (r : Reader) : Reader × Nat :=
  match checkValue r CM_VERSION 4 with
  | (r', false) => (r', 0)
  | (r', true) =>
      ({ r' with readSize := r'.readSize + 1 + 4 },
        fromLE (loadBytes r'.message (r'.readSize + 1) 4))

/-! ## Endianness normalization -/

/-- `inverseByteOrder`: reverse `size` bytes in place at offset `off`. -/
def inverseByteOrder (d : List Nat) (off size : Nat) : List Nat :=
  storeBytes d off ((loadBytes d off size).reverse)

/-- The per-item inner loop of `convertEndianness`: reverse `itemCount` chunks
of `itemLen` bytes, advancing the pointer and decrementing the remaining size
with `uint32` wrap-around, exactly as the source's `size -= itemLen` does. -/
def invChunks : List Nat → Nat → Nat → Nat → Nat → List Nat × Nat × Nat
  | d, off, size, _, 0 => (d, off, size)
  | d, off, size, itemLen, n + 1 =>
      invChunks (inverseByteOrder d off itemLen) (off + itemLen)
        (sub32 size itemLen) itemLen n

/-- One iteration of the `convertEndianness` loop body: classify the flag,
swap the count field of an array, and run the chunk loop; `none` on an
unrecognized flag (the `return false` branch). -/
def convStep (d : List Nat) (off size : Nat) :
    Option (List Nat × Nat × Nat) :=
  let flag := d.getD off 0
  let itemLen := 1 <<< (flag &&& 0x03)
  let off := off + 1
  let size := sub32 size 1
  if isArray flag then
    let d := inverseByteOrder d off 4
    let itemCount := fromLE (loadBytes d off 4)
    some (invChunks d (off + 4) (sub32 size 4) itemLen itemCount)
  else if isVersion flag then
    some (invChunks d off size 4 1)
  else if isSingleValue flag then
    some (invChunks d off size itemLen 1)
  else none

/-- The `while (size > 0)` loop of `convertEndianness`, with explicit fuel;
the boolean is the function's result (`false` on an unrecognized flag, and
also when the fuel runs out, which on actual hardware is an out-of-bounds
walk whose outcome the model does not specify further). -/
def convLoop : Nat → List Nat → Nat → Nat → List Nat × Bool
  | 0, d, _, size => (d, size = 0)
  | fuel + 1, d, off, size =>
      if size = 0 then (d, true)
      else
        match convStep d off size with
        | none => (d, false)
        | some (d', off', size') => convLoop fuel d' off' size'

/-- `convertEndianness` over a region of `size` bytes. Each iteration of the
source loop consumes at least one byte of `size` unless the counter wraps, so
`size` itself bounds the number of iterations of any run that terminates
normally. -/
def convertEndianness (message : List Nat) (size : Nat) : List Nat × Bool :=
  convLoop size message 0 size

/-- `cmGetReader`. The source dereferences the 2-byte marker before any size
check, so construction over an allocation shorter than 2 bytes is an
out-of-bounds access, modelled as `none`. On a byte-swapped marker the whole
remaining region is normalized in place; on normalization failure the
(partially rewritten) region is kept and `NO_ENDIAN` is latched. -/
def cmGetReader (m : List Nat) (size : Nat) : Option Reader :=
  if m.length < 2 then none
  else
    let e := fromLE (loadBytes m 0 2)
    if size < 2 ∨ (e ≠ ENDIAN_MARK ∧ e ≠ ENDIAN_INV_MARK) then
      some { message := m, totalSize := size, readSize := 0,
             firstError := CM_ERROR_NO_ENDIAN }
    else if e ≠ ENDIAN_MARK then
      match convertEndianness (m.drop 2) (size - 2) with
      | (d', false) =>
          some { message := m.take 2 ++ d', totalSize := size, readSize := 0,
                 firstError := CM_ERROR_NO_ENDIAN }
      | (d', true) =>
          some { message := m.take 2 ++ d', totalSize := size, readSize := 2,
                 firstError := CM_ERROR_NONE }
    else
      some { message := m, totalSize := size, readSize := 2,
             firstError := CM_ERROR_NONE }

/-! ## Byte-level lemmas -/

theorem length_toLE (w v : Nat) : (toLE w v).length = w := by
  induction w generalizing v with
  | zero => rfl
  | succ w ih => simp [toLE, ih]

theorem fromLE_toLE (w v : Nat) : fromLE (toLE w v) = v % 256 ^ w := by
  induction w generalizing v with
  | zero => simp [toLE, fromLE, Nat.mod_one]
  | succ w ih =>
      rw [toLE, fromLE, ih, pow_succ, mul_comm (256 ^ w) 256, Nat.mod_mul]

theorem map_getD_range (l : List Nat) :
    (List.range l.length).map (fun i => l.getD i 0) = l := by
  induction l with
  | nil => rfl
  | cons a t ih =>
      rw [List.length_cons, List.range_succ_eq_map, List.map_cons, List.map_map]
      refine congrArg₂ _ rfl ?_
      calc (List.range t.length).map ((fun i => (a :: t).getD i 0) ∘ Nat.succ)
          = (List.range t.length).map (fun i => t.getD i 0) := by
            refine List.map_congr_left fun i _ => ?_
            simp [List.getD_cons_succ]
        _ = t := ih

theorem loadBytes_self (l : List Nat) : loadBytes l 0 l.length = l := by
  calc loadBytes l 0 l.length
      = (List.range l.length).map (fun i => l.getD i 0) := by
        unfold loadBytes
        exact List.map_congr_left fun i _ => by rw [Nat.zero_add]
    _ = l := map_getD_range l

theorem loadBytes_append (p x s : List Nat) :
    loadBytes (p ++ (x ++ s)) p.length x.length = x := by
  unfold loadBytes
  calc (List.range x.length).map (fun i => (p ++ (x ++ s)).getD (p.length + i) 0)
      = (List.range x.length).map (fun i => x.getD i 0) := by
        refine List.map_congr_left fun i hi => ?_
        rw [List.getD_append_right _ _ _ _ (Nat.le_add_right _ _),
          Nat.add_sub_cancel_left,
          List.getD_append _ _ _ _ (List.mem_range.mp hi)]
    _ = x := map_getD_range x

theorem getD_append_mid (p s : List Nat) (a : Nat) :
    (p ++ (a :: s)).getD p.length 0 = a := by
  rw [List.getD_append_right _ _ _ _ le_rfl, Nat.sub_self, List.getD_cons_zero]

theorem storeBytes_append (p rest bs : List Nat) :
    storeBytes (p ++ rest) p.length bs = p ++ (bs ++ rest.drop bs.length) := by
  unfold storeBytes
  simp [List.drop_append_eq_append_drop]

theorem sub32_sub (a b : Nat) (hb : b ≤ a) (ha : a < 4294967296) :
    sub32 a b = a - b := by
  unfold sub32
  omega

/-! ## Writer and reader step lemmas -/

theorem writeValue_ok (p rest val : List Nat) (bsz len type : Nat)
    (hsp : 1 + len ≤ bsz - p.length)
    (hflag : getTypeFlag type len ≠ 0)
    (hval : val.length = len) :
    writeValue ⟨p ++ rest, bsz, p.length, CM_ERROR_NONE⟩ val len type =
      (⟨p ++ (getTypeFlag type len :: val) ++ rest.drop (1 + len), bsz,
        p.length + (1 + len), CM_ERROR_NONE⟩, true) := by
  have hens : ensureSpace ⟨p ++ rest, bsz, p.length, CM_ERROR_NONE⟩ (1 + len) =
      (⟨p ++ rest, bsz, p.length, CM_ERROR_NONE⟩, true) := by
    unfold ensureSpace
    simp only [CM_ERROR_NONE]
    rw [if_neg (by simp), if_neg (by simp; omega)]
  have hstore1 : storeBytes (p ++ rest) p.length [getTypeFlag type len] =
      (p ++ [getTypeFlag type len]) ++ rest.drop 1 := by
    rw [storeBytes_append]; simp
  have hens2 : ensureSpace ⟨(p ++ [getTypeFlag type len]) ++ rest.drop 1, bsz,
      p.length + 1, CM_ERROR_NONE⟩ len =
      (⟨(p ++ [getTypeFlag type len]) ++ rest.drop 1, bsz, p.length + 1,
        CM_ERROR_NONE⟩, true) := by
    unfold ensureSpace
    simp only [CM_ERROR_NONE]
    rw [if_neg (by simp), if_neg (by simp; omega)]
  have hload : loadBytes val 0 len = val := by rw [← hval, loadBytes_self]
  have hstore2 : storeBytes ((p ++ [getTypeFlag type len]) ++ rest.drop 1)
      (p.length + 1) val = p ++ (getTypeFlag type len :: val) ++ rest.drop (1 + len) := by
    have hlen : (p ++ [getTypeFlag type len]).length = p.length + 1 := by simp
    rw [← hlen, storeBytes_append, List.drop_drop, hval]
    simp [Nat.add_comm]
  have harith : p.length + 1 + len = p.length + (1 + len) := by omega
  simp only [CM_ERROR_NONE] at hens hens2
  simp only [writeValue, writeBytes, CM_ERROR_NONE, hens, hens2, hstore1,
    hstore2, hload, if_neg hflag, harith]
  simp

theorem readValue_ok (p val s : List Nat) (ts len type : Nat)
    (hts : p.length + 1 + len ≤ ts)
    (hsT : splitTypeFlagType (getTypeFlag type len) = type)
    (hsL : splitTypeFlagLen (getTypeFlag type len) = len)
    (hval : val.length = len) :
    readValue ⟨p ++ (getTypeFlag type len :: val) ++ s, ts, p.length,
        CM_ERROR_NONE⟩ len type =
      (⟨p ++ (getTypeFlag type len :: val) ++ s, ts, p.length + 1 + len,
        CM_ERROR_NONE⟩, some val) := by
  have hflag : (p ++ (getTypeFlag type len :: val) ++ s).getD p.length 0 =
      getTypeFlag type len := by
    rw [List.getD_append _ _ _ _ (by simp)]
    exact getD_append_mid p val _
  have hpay : loadBytes (p ++ (getTypeFlag type len :: val) ++ s)
      (p.length + 1) len = val := by
    have hsh : p ++ (getTypeFlag type len :: val) ++ s =
        (p ++ [getTypeFlag type len]) ++ (val ++ s) := by simp
    have h := loadBytes_append (p ++ [getTypeFlag type len]) val s
    rw [hval] at h
    rw [hsh]
    simpa using h
  unfold readValue
  rw [if_neg (by simp [CM_ERROR_NONE])]
  rw [if_neg (by simp; omega)]
  simp only [hflag, hsT, hsL]
  rw [if_neg (by simp), hpay]

/-! ## Decode/encode inverses -/

theorem fromLE_toLE_self (w v : Nat) (h : v < 256 ^ w) :
    fromLE (toLE w v) = v := by
  rw [fromLE_toLE, Nat.mod_eq_of_lt h]

theorem bytesToInt_intToBytes1 (v : Int) (h1 : -128 ≤ v) (h2 : v < 128) :
    bytesToInt 1 (intToBytes 1 v) = v := by
  unfold bytesToInt intToBytes
  rw [fromLE_toLE]
  norm_num
  omega

theorem bytesToInt_intToBytes2 (v : Int) (h1 : -32768 ≤ v) (h2 : v < 32768) :
    bytesToInt 2 (intToBytes 2 v) = v := by
  unfold bytesToInt intToBytes
  rw [fromLE_toLE]
  norm_num
  omega

theorem bytesToInt_intToBytes4 (v : Int) (h1 : -2147483648 ≤ v)
    (h2 : v < 2147483648) : bytesToInt 4 (intToBytes 4 v) = v := by
  unfold bytesToInt intToBytes
  rw [fromLE_toLE]
  norm_num
  omega

theorem bytesToInt_intToBytes8 (v : Int) (h1 : -9223372036854775808 ≤ v)
    (h2 : v < 9223372036854775808) : bytesToInt 8 (intToBytes 8 v) = v := by
  unfold bytesToInt intToBytes
  rw [fromLE_toLE]
  norm_num
  omega

/-! ## The twelve scalar operations, packaged

One value per supported scalar type, carrying the value written; the reader
side rebuilds the same constructor from the decoded bytes, so a round trip is
stated as returning the very same `ScalarCase`. -/

inductive ScalarCase where
  | i8 (v : Int)
  | u8 (v : Nat)
  | i16 (v : Int)
  | u16 (v : Nat)
  | i32 (v : Int)
  | u32 (v : Nat)
  | i64 (v : Int)
  | u64 (v : Nat)
  | f (bits : Nat)
  | d (bits : Nat)
  | b (v : Bool)
  | c (v : Nat)
deriving DecidableEq, Repr

/-- Payload width in bytes (`sizeof` of the C type). -/
def ScalarCase.width : ScalarCase → Nat
  | .i8 _ => 1 | .u8 _ => 1 | .i16 _ => 2 | .u16 _ => 2
  | .i32 _ => 4 | .u32 _ => 4 | .i64 _ => 8 | .u64 _ => 8
  | .f _ => 4 | .d _ => 8 | .b _ => 1 | .c _ => 1

/-- The `CM_TYPE_*` code each wrapper passes to `writeValue`/`readValue`. -/
def ScalarCase.typeOf : ScalarCase → Nat
  | .i8 _ => CM_TYPE_INT | .u8 _ => CM_TYPE_UINT
  | .i16 _ => CM_TYPE_INT | .u16 _ => CM_TYPE_UINT
  | .i32 _ => CM_TYPE_INT | .u32 _ => CM_TYPE_UINT
  | .i64 _ => CM_TYPE_INT | .u64 _ => CM_TYPE_UINT
  | .f _ => CM_TYPE_FLOAT | .d _ => CM_TYPE_FLOAT
  | .b _ => CM_TYPE_BOOL | .c _ => CM_TYPE_CHAR

/-- Representable values of the carried C type (for floats, any 32-bit or
64-bit object representation). -/
def ScalarCase.Rep : ScalarCase → Prop
  | .i8 v => -128 ≤ v ∧ v < 128
  | .u8 v => v < 256
  | .i16 v => -32768 ≤ v ∧ v < 32768
  | .u16 v => v < 65536
  | .i32 v => -2147483648 ≤ v ∧ v < 2147483648
  | .u32 v => v < 4294967296
  | .i64 v => -9223372036854775808 ≤ v ∧ v < 9223372036854775808
  | .u64 v => v < 18446744073709551616
  | .f bits => bits < 4294967296
  | .d bits => bits < 18446744073709551616
  | .b _ => True
  | .c v => v < 256

/-- The byte image each write wrapper passes to `writeValue`. -/
def encScalar : ScalarCase → List Nat
  | .i8 v => intToBytes 1 v
  | .u8 v => toLE 1 v
  | .i16 v => intToBytes 2 v
  | .u16 v => toLE 2 v
  | .i32 v => intToBytes 4 v
  | .u32 v => toLE 4 v
  | .i64 v => intToBytes 8 v
  | .u64 v => toLE 8 v
  | .f bits => toLE 4 bits
  | .d bits => toLE 8 bits
  | .b v => [if v then 1 else 0]
  | .c v => toLE 1 v

/-- How each read wrapper turns the bytes copied by `readValue` (or a failed
read, `none`) into its return value. -/
def ScalarCase.dec : ScalarCase → Option (List Nat) → ScalarCase
  | .i8 _, none => .i8 0
  | .i8 _, some bs => .i8 (bytesToInt 1 bs)
  | .u8 _, none => .u8 0
  | .u8 _, some bs => .u8 (fromLE bs)
  | .i16 _, none => .i16 0
  | .i16 _, some bs => .i16 (bytesToInt 2 bs)
  | .u16 _, none => .u16 0
  | .u16 _, some bs => .u16 (fromLE bs)
  | .i32 _, none => .i32 0
  | .i32 _, some bs => .i32 (bytesToInt 4 bs)
  | .u32 _, none => .u32 0
  | .u32 _, some bs => .u32 (fromLE bs)
  | .i64 _, none => .i64 0
  | .i64 _, some bs => .i64 (bytesToInt 8 bs)
  | .u64 _, none => .u64 0
  | .u64 _, some bs => .u64 (fromLE bs)
  | .f _, none => .f 0
  | .f _, some bs => .f (fromLE bs)
  | .d _, none => .d 0
  | .d _, some bs => .d (fromLE bs)
  | .b _, none => .b false
  | .b _, some bs => .b (bs.getD 0 0 ≠ 0)
  | .c _, none => .c 0
  | .c _, some bs => .c (fromLE bs)

/-- Dispatch to the write operation of the carried type. -/
def writeScalar (w : Writer) : ScalarCase → Writer
  | .i8 v => cmWriteI8 w v
  | .u8 v => cmWriteU8 w v
  | .i16 v => cmWriteI16 w v
  | .u16 v => cmWriteU16 w v
  | .i32 v => cmWriteI32 w v
  | .u32 v => cmWriteU32 w v
  | .i64 v => cmWriteI64 w v
  | .u64 v => cmWriteU64 w v
  | .f bits => cmWriteF w bits
  | .d bits => cmWriteD w bits
  | .b v => cmWriteBool w v
  | .c v => cmWriteChar w v

/-- Dispatch to the read operation of the carried type, repackaging the value
read into the same constructor. -/
def readScalar (r : Reader) : ScalarCase → Reader × ScalarCase
  | .i8 _ => ((cmReadI8 r).1, .i8 (cmReadI8 r).2)
  | .u8 _ => ((cmReadU8 r).1, .u8 (cmReadU8 r).2)
  | .i16 _ => ((cmReadI16 r).1, .i16 (cmReadI16 r).2)
  | .u16 _ => ((cmReadU16 r).1, .u16 (cmReadU16 r).2)
  | .i32 _ => ((cmReadI32 r).1, .i32 (cmReadI32 r).2)
  | .u32 _ => ((cmReadU32 r).1, .u32 (cmReadU32 r).2)
  | .i64 _ => ((cmReadI64 r).1, .i64 (cmReadI64 r).2)
  | .u64 _ => ((cmReadU64 r).1, .u64 (cmReadU64 r).2)
  | .f _ => ((cmReadF r).1, .f (cmReadF r).2)
  | .d _ => ((cmReadD r).1, .d (cmReadD r).2)
  | .b _ => ((cmReadBool r).1, .b (cmReadBool r).2)
  | .c _ => ((cmReadChar r).1, .c (cmReadChar r).2)

theorem writeScalar_eq (w : Writer) (sc : ScalarCase) :
    writeScalar w sc = (writeValue w (encScalar sc) sc.width sc.typeOf).1 := by
  cases sc <;> rfl

theorem readScalar_eq (r : Reader) (sc : ScalarCase) :
    readScalar r sc = ((readValue r sc.width sc.typeOf).1,
      sc.dec (readValue r sc.width sc.typeOf).2) := by
  cases sc <;>
    simp only [readScalar, ScalarCase.width, ScalarCase.typeOf, cmReadI8,
      cmReadU8, cmReadI16, cmReadU16, cmReadI32, cmReadU32, cmReadI64,
      cmReadU64, cmReadF, cmReadD, cmReadBool, cmReadChar] <;>
    rcases readValue r _ _ with ⟨r', _ | bs⟩ <;> rfl

theorem encScalar_length (sc : ScalarCase) : (encScalar sc).length = sc.width := by
  cases sc <;> simp [encScalar, ScalarCase.width, intToBytes, length_toLE]

set_option maxHeartbeats 1000000 in
theorem scalar_flag_facts (sc : ScalarCase) :
    getTypeFlag sc.typeOf sc.width ≠ 0 ∧
    splitTypeFlagType (getTypeFlag sc.typeOf sc.width) = sc.typeOf ∧
    splitTypeFlagLen (getTypeFlag sc.typeOf sc.width) = sc.width := by
  cases sc <;> (simp only [ScalarCase.typeOf, ScalarCase.width]; decide)

theorem dec_enc (sc : ScalarCase) (hrep : sc.Rep) :
    sc.dec (some (encScalar sc)) = sc := by
  cases sc with
  | i8 v => simp only [ScalarCase.dec, encScalar,
      bytesToInt_intToBytes1 v hrep.1 hrep.2]
  | i16 v => simp only [ScalarCase.dec, encScalar,
      bytesToInt_intToBytes2 v hrep.1 hrep.2]
  | i32 v => simp only [ScalarCase.dec, encScalar,
      bytesToInt_intToBytes4 v hrep.1 hrep.2]
  | i64 v => simp only [ScalarCase.dec, encScalar,
      bytesToInt_intToBytes8 v hrep.1 hrep.2]
  | u8 v => simp only [ScalarCase.dec, encScalar, fromLE_toLE_self 1 v hrep]
  | u16 v => simp only [ScalarCase.dec, encScalar, fromLE_toLE_self 2 v hrep]
  | u32 v => simp only [ScalarCase.dec, encScalar, fromLE_toLE_self 4 v hrep]
  | u64 v => simp only [ScalarCase.dec, encScalar, fromLE_toLE_self 8 v hrep]
  | f bits => simp only [ScalarCase.dec, encScalar, fromLE_toLE_self 4 bits hrep]
  | d bits => simp only [ScalarCase.dec, encScalar, fromLE_toLE_self 8 bits hrep]
  | b v => cases v <;> rfl
  | c v => simp only [ScalarCase.dec, encScalar, fromLE_toLE_self 1 v hrep]

/-! ## Claim C1 -/

/-- C1: for every supported scalar type and every representable value of that
type, writing it with the corresponding write operation into a writer with
enough remaining capacity succeeds, and reading it back with the corresponding
read operation on a reader positioned over the produced bytes returns exactly
the value written, both sticky error fields remaining `CM_ERROR_NONE` and the
cursors advancing by tag plus payload. -/
theorem c1_scalar_roundtrip (sc : ScalarCase) (w : Writer)
    (hrep : sc.Rep) (herr : w.firstError = CM_ERROR_NONE)
    (hbsz : w.bufferSize = w.buffer.length)
    (hinv : w.usedSize ≤ w.buffer.length)
    (hsp : 1 + sc.width ≤ w.bufferSize - w.usedSize) :
    (writeScalar w sc).firstError = CM_ERROR_NONE ∧
    (writeScalar w sc).usedSize = w.usedSize + (1 + sc.width) ∧
    ∀ r : Reader, r.message = (writeScalar w sc).buffer →
      r.readSize = w.usedSize → w.usedSize + 1 + sc.width ≤ r.totalSize →
      r.firstError = CM_ERROR_NONE →
      readScalar r sc = ({ r with readSize := r.readSize + (1 + sc.width) }, sc) := by
  obtain ⟨hflag, hsT, hsL⟩ := scalar_flag_facts sc
  obtain ⟨buf, bsz, us, fe⟩ := w
  dsimp only at herr hbsz hinv hsp ⊢
  subst herr hbsz
  obtain ⟨p, rest, rfl, hplen⟩ : ∃ p rest, buf = p ++ rest ∧ p.length = us :=
    ⟨buf.take us, buf.drop us, (List.take_append_drop _ _).symm, by
      simp [List.length_take]; omega⟩
  subst hplen
  have hws : writeScalar ⟨p ++ rest, (p ++ rest).length, p.length,
      CM_ERROR_NONE⟩ sc =
      ⟨p ++ (getTypeFlag sc.typeOf sc.width :: encScalar sc) ++
          rest.drop (1 + sc.width), (p ++ rest).length,
        p.length + (1 + sc.width), CM_ERROR_NONE⟩ := by
    rw [writeScalar_eq,
      writeValue_ok p rest (encScalar sc) _ sc.width sc.typeOf hsp hflag
        (encScalar_length sc)]
  refine ⟨by rw [hws], by rw [hws], ?_⟩
  intro r hm hrs hts herr'
  rw [hws] at hm
  obtain ⟨msg, ts, rs, rfe⟩ := r
  dsimp only at hm hrs hts herr' ⊢
  subst hm hrs herr'
  rw [readScalar_eq,
    readValue_ok p (encScalar sc) (rest.drop (1 + sc.width)) ts sc.width
      sc.typeOf hts hsT hsL (encScalar_length sc)]
  rw [dec_enc sc hrep]
  have : p.length + 1 + sc.width = p.length + (1 + sc.width) := by omega
  rw [this]

/-- Witness for C1: writing the type-minimum `int8_t` value into a fresh
4-byte writer and reading it back returns it with no error. -/
theorem c1_scalar_roundtrip_witness :
    (writeScalar (cmGetWriter (List.replicate 4 0) 4)
        (.i8 (-128))).firstError = CM_ERROR_NONE ∧
    readScalar ⟨(writeScalar (cmGetWriter (List.replicate 4 0) 4)
        (.i8 (-128))).buffer, 4, 2, CM_ERROR_NONE⟩ (.i8 (-128)) =
      (⟨(writeScalar (cmGetWriter (List.replicate 4 0) 4)
          (.i8 (-128))).buffer, 4, 4, CM_ERROR_NONE⟩, .i8 (-128)) := by
  have h := c1_scalar_roundtrip (.i8 (-128)) (cmGetWriter (List.replicate 4 0) 4)
    (by constructor <;> norm_num [ScalarCase.Rep]) (by decide) (by decide)
    (by decide) (by decide)
  refine ⟨h.1, ?_⟩
  have h3 := h.2.2 ⟨(writeScalar (cmGetWriter (List.replicate 4 0) 4)
      (.i8 (-128))).buffer, 4, 2, CM_ERROR_NONE⟩ rfl (by decide) (by decide) rfl
  simpa using h3

/-! ## Claim C2 -/

/-- C2 (code bug): `readValue` checks `totalSize - readSize < len`, omitting
the tag byte, so with a matching tag and exactly `len` bytes remaining the
read succeeds and consumes a payload byte past `totalSize` (final
`readSize = 4 > totalSize = 3`); and `cmReadTypedArray` never bounds-checks
the declared payload, so a declared count of 10 over an empty remainder
copies 10 bytes past the end (`readSize = 17 > totalSize = 7`), instead of
the `NO_VALUE` failure the claim requires. -/
theorem c2_read_bounds_bug :
    ((readValue ⟨[9, 7, 4], 3, 2, CM_ERROR_NONE⟩ 1 CM_TYPE_UINT).1.firstError
        = CM_ERROR_NONE ∧
      (readValue ⟨[9, 7, 4], 3, 2, CM_ERROR_NONE⟩ 1 CM_TYPE_UINT).1.readSize
        = 4 ∧ 3 < 4) ∧
    ((cmReadTypedArray ⟨[9, 7, 68, 10, 0, 0, 0], 7, 2, CM_ERROR_NONE⟩
        CM_TYPE_UINT 1 32).1.firstError = CM_ERROR_NONE ∧
      (cmReadTypedArray ⟨[9, 7, 68, 10, 0, 0, 0], 7, 2, CM_ERROR_NONE⟩
        CM_TYPE_UINT 1 32).1.readSize = 17 ∧ 7 < 17) := by decide

/-! ## Claim C3 -/

/-- C3 (code bug): on a writer or reader whose `firstError` is already set,
the typed-array operations called with an invalid `itemSize` overwrite the
recorded error with `INVALID_ARG`, because their argument guards run before
the sticky-error check. -/
theorem c3_sticky_error_overwritten_bug :
    (cmWriteTypedArray ⟨[0, 0, 0], 3, 2, CM_ERROR_NO_SPACE⟩
        CM_TYPE_UINT 9 [] 1).firstError = CM_ERROR_INVALID_ARG ∧
    (cmReadTypedArray ⟨[9, 7], 2, 2, CM_ERROR_NO_VALUE⟩
        CM_TYPE_UINT 9 0).1.firstError = CM_ERROR_INVALID_ARG ∧
    CM_ERROR_INVALID_ARG ≠ CM_ERROR_NO_SPACE ∧
    CM_ERROR_INVALID_ARG ≠ CM_ERROR_NO_VALUE := by decide

/-! ## Claim C4 -/

/-- C4 (code bug): the guards only reject `itemSize = 0` and `itemSize > 8`,
so `itemSize = 3` passes; the array write then proceeds with no error, writing
a zero flag byte (because `getTypeFlag` returns its 0 sentinel) and advancing
the cursor, and the array read with `itemSize = 3` fails with `NO_VALUE`, not
`INVALID_ARG`. -/
theorem c4_item_size_three_accepted_bug :
    (cmWriteTypedArray (cmGetWriter (List.replicate 16 0) 16)
        CM_TYPE_UINT 3 [1, 2, 3] 1).firstError = CM_ERROR_NONE ∧
    (cmWriteTypedArray (cmGetWriter (List.replicate 16 0) 16)
        CM_TYPE_UINT 3 [1, 2, 3] 1).usedSize = 10 ∧
    (cmWriteTypedArray (cmGetWriter (List.replicate 16 0) 16)
        CM_TYPE_UINT 3 [1, 2, 3] 1).buffer.getD 2 0 = 0 ∧
    (cmReadTypedArray ⟨[9, 7, 0, 1, 0, 0, 0, 1, 2, 3], 10, 2, CM_ERROR_NONE⟩
        CM_TYPE_UINT 3 5).1.firstError = CM_ERROR_NO_VALUE ∧
    CM_ERROR_NO_VALUE ≠ CM_ERROR_INVALID_ARG := by decide

/-! ## Claim C6 -/

/-- C6: on a reader with no latched error and enough bytes remaining, a scalar
read whose expected type or width does not match the tag byte at the cursor
latches `NO_VALUE`, leaves `readSize` unchanged, and yields no value (wrappers
then return the zero value of the requested type). -/
theorem c6_type_mismatch (r : Reader) (len type : Nat)
    (herr : r.firstError = CM_ERROR_NONE)
    (hrem : r.readSize + 1 + len ≤ r.totalSize)
    (hmis : splitTypeFlagType (r.message.getD r.readSize 0) ≠ type ∨
            len ≠ splitTypeFlagLen (r.message.getD r.readSize 0)) :
    readValue r len type = ({ r with firstError := CM_ERROR_NO_VALUE }, none) := by
  unfold readValue
  rw [if_neg (by simp [herr, CM_ERROR_NONE]), if_neg (by omega), if_pos hmis]

/-- Witness for C6: write a `uint64_t`, then read it back as an `int32_t`:
the read fails with `NO_VALUE`, returns 0 and does not advance the cursor. -/
theorem c6_type_mismatch_witness :
    cmReadI32 ⟨(cmWriteU64 (cmGetWriter (List.replicate 16 0) 16) 5).buffer,
        (cmWriteU64 (cmGetWriter (List.replicate 16 0) 16) 5).usedSize, 2,
        CM_ERROR_NONE⟩ =
      (⟨(cmWriteU64 (cmGetWriter (List.replicate 16 0) 16) 5).buffer,
        (cmWriteU64 (cmGetWriter (List.replicate 16 0) 16) 5).usedSize, 2,
        CM_ERROR_NO_VALUE⟩, 0) := by
  have h := c6_type_mismatch
    ⟨(cmWriteU64 (cmGetWriter (List.replicate 16 0) 16) 5).buffer,
      (cmWriteU64 (cmGetWriter (List.replicate 16 0) 16) 5).usedSize, 2,
      CM_ERROR_NONE⟩ 4 CM_TYPE_INT rfl (by decide) (by decide)
  simp only [cmReadI32, h]

/-! ## Claim C7 -/

theorem writeValue_noSpace (w : Writer) (val : List Nat) (len type : Nat)
    (herr : w.firstError = CM_ERROR_NONE)
    (hsp : w.bufferSize - w.usedSize < 1 + len) :
    writeValue w val len type =
      ({ w with firstError := CM_ERROR_NO_SPACE }, false) := by
  unfold writeValue ensureSpace
  rw [if_neg (by simp [herr, CM_ERROR_NONE])]
  rw [if_neg (by simp [herr, CM_ERROR_NONE]), if_pos hsp]

/-- C7: a scalar write on a clean writer whose remaining capacity is below
`1 + width` latches `NO_SPACE` and changes nothing else: same buffer, same
`usedSize`, and `false` is returned before any byte of the value is stored. -/
theorem c7_write_no_space (w : Writer) (val : List Nat) (len type : Nat)
    (herr : w.firstError = CM_ERROR_NONE)
    (hsp : w.bufferSize - w.usedSize < 1 + len) :
    writeValue w val len type = ({ w with firstError := CM_ERROR_NO_SPACE }, false) :=
  writeValue_noSpace w val len type herr hsp

/-- Witness for C7: a capacity-3 writer (2 marker bytes plus 1 spare) refuses
a 1-byte scalar write, which needs 2 bytes, leaving `usedSize` at 2. -/
theorem c7_write_no_space_witness :
    writeValue (cmGetWriter (List.replicate 3 0) 3) [5] 1 CM_TYPE_UINT =
      ({ cmGetWriter (List.replicate 3 0) 3 with
          firstError := CM_ERROR_NO_SPACE }, false) := by
  exact c7_write_no_space (cmGetWriter (List.replicate 3 0) 3) [5] 1
    CM_TYPE_UINT (by decide) (by decide)

theorem loadBytes_length (m : List Nat) (off len : Nat) :
    (loadBytes m off len).length = len := by
  simp [loadBytes]

theorem writeBytes_ok (P rest data : List Nat) (L size : Nat)
    (hsz : size ≤ L - P.length) :
    writeBytes ⟨P ++ rest, L, P.length, CM_ERROR_NONE⟩ data size =
      (⟨(P ++ loadBytes data 0 size) ++ rest.drop size, L, P.length + size,
        CM_ERROR_NONE⟩, true) := by
  unfold writeBytes ensureSpace
  rw [if_neg (by simp [CM_ERROR_NONE])]
  rw [if_neg (by dsimp only; omega)]
  dsimp only
  rw [storeBytes_append, List.append_assoc, loadBytes_length]

theorem cmWriteVersion_ok (p rest : List Nat) (v : Nat)
    (hsp : 1 + 4 ≤ (p ++ rest).length - p.length) :
    cmWriteVersion ⟨p ++ rest, (p ++ rest).length, p.length, CM_ERROR_NONE⟩ v =
      ⟨p ++ (CM_VERSION :: toLE 4 v) ++ rest.drop (1 + 4), (p ++ rest).length,
        p.length + (1 + 4), CM_ERROR_NONE⟩ := by
  have hwv := writeValue_ok p rest (toLE 4 v) (p ++ rest).length 4
    CM_TYPE_UINT hsp (by decide) (length_toLE 4 v)
  have hpatch : storeBytes
      (p ++ (getTypeFlag CM_TYPE_UINT 4 :: toLE 4 v) ++ rest.drop (1 + 4))
      p.length [CM_VERSION] =
      p ++ (CM_VERSION :: toLE 4 v) ++ rest.drop (1 + 4) := by
    rw [List.append_assoc, storeBytes_append]
    simp
  have harith : p.length + (1 + 4) - 4 - 1 = p.length := by omega
  unfold cmWriteVersion cmWriteU32
  rw [hwv]
  dsimp only
  rw [if_pos rfl, harith, hpatch]

/-! ## Claim C8 -/

/-- C8: with no latched error and at least 5 bytes of remaining capacity,
`cmWriteVersion v` performs the 4-byte unsigned write and then overwrites the
tag byte at `usedSize - 5` with the version tag `1000 0011`, leaving the 4
payload bytes equal to `v`; `cmReadVersion` at that position returns `v` and
advances the cursor by 5. When the underlying write fails for lack of space,
only `NO_SPACE` is latched and no tag byte is patched. -/
theorem c8_version_patch (w : Writer) (v : Nat)
    (hv : v < 4294967296) (herr : w.firstError = CM_ERROR_NONE)
    (hbsz : w.bufferSize = w.buffer.length)
    (hinv : w.usedSize ≤ w.buffer.length) :
    (5 ≤ w.bufferSize - w.usedSize →
      (cmWriteVersion w v).firstError = CM_ERROR_NONE ∧
      (cmWriteVersion w v).usedSize = w.usedSize + 5 ∧
      (cmWriteVersion w v).buffer.getD ((cmWriteVersion w v).usedSize - 5) 0
        = CM_VERSION ∧
      loadBytes (cmWriteVersion w v).buffer ((cmWriteVersion w v).usedSize - 4) 4
        = toLE 4 v ∧
      ∀ r : Reader, r.message = (cmWriteVersion w v).buffer →
        r.readSize = w.usedSize → w.usedSize + 5 ≤ r.totalSize →
        r.firstError = CM_ERROR_NONE →
        cmReadVersion r = ({ r with readSize := r.readSize + 5 }, v)) ∧
    (w.bufferSize - w.usedSize < 5 →
      cmWriteVersion w v = { w with firstError := CM_ERROR_NO_SPACE }) := by
  obtain ⟨buf, bsz, us, fe⟩ := w
  dsimp only at herr hbsz hinv ⊢
  subst herr hbsz
  constructor
  · intro hsp
    obtain ⟨p, rest, rfl, hplen⟩ : ∃ p rest, buf = p ++ rest ∧ p.length = us :=
      ⟨buf.take us, buf.drop us, (List.take_append_drop _ _).symm, by
        simp [List.length_take]; omega⟩
    subst hplen
    have hver := cmWriteVersion_ok p rest v (by omega)
    rw [hver]
    dsimp only
    refine ⟨rfl, by omega, ?_, ?_, ?_⟩
    · have : p.length + (1 + 4) - 5 = p.length := by omega
      rw [this]
      rw [List.getD_append _ _ _ _ (by simp)]
      exact getD_append_mid p (toLE 4 v) CM_VERSION
    · have : p.length + (1 + 4) - 4 = p.length + 1 := by omega
      rw [this]
      have hsh : p ++ (CM_VERSION :: toLE 4 v) ++ rest.drop (1 + 4) =
          (p ++ [CM_VERSION]) ++ (toLE 4 v ++ rest.drop (1 + 4)) := by simp
      have h := loadBytes_append (p ++ [CM_VERSION]) (toLE 4 v)
        (rest.drop (1 + 4))
      rw [length_toLE] at h
      rw [hsh]
      simpa using h
    · intro r hm hrs hts herr'
      obtain ⟨msg, ts, rs, rfe⟩ := r
      dsimp only at hm hrs hts herr' ⊢
      subst hm hrs herr'
      have hchk : checkValue ⟨p ++ (CM_VERSION :: toLE 4 v) ++
          rest.drop (1 + 4), ts, p.length, CM_ERROR_NONE⟩ CM_VERSION 4 =
          (⟨p ++ (CM_VERSION :: toLE 4 v) ++ rest.drop (1 + 4), ts, p.length,
            CM_ERROR_NONE⟩, true) := by
        unfold checkValue
        rw [if_neg (by simp [CM_ERROR_NONE])]
        rw [if_neg ?hcond]
        case hcond =>
          rw [not_or]
          refine ⟨by dsimp only; omega, ?_⟩
          dsimp only
          rw [List.getD_append _ _ _ _ (by simp),
            getD_append_mid p (toLE 4 v) CM_VERSION]
          simp
      unfold cmReadVersion
      rw [hchk]
      dsimp only
      have hsh : p ++ (CM_VERSION :: toLE 4 v) ++ rest.drop (1 + 4) =
          (p ++ [CM_VERSION]) ++ (toLE 4 v ++ rest.drop (1 + 4)) := by simp
      have h := loadBytes_append (p ++ [CM_VERSION]) (toLE 4 v)
        (rest.drop (1 + 4))
      rw [length_toLE] at h
      have hload : loadBytes (p ++ (CM_VERSION :: toLE 4 v) ++
          rest.drop (1 + 4)) (p.length + 1) 4 = toLE 4 v := by
        rw [hsh]
        simpa using h
      rw [hload, fromLE_toLE_self 4 v hv]
  · intro hsp
    have hnos := writeValue_noSpace ⟨buf, buf.length, us, CM_ERROR_NONE⟩
      (toLE 4 v) 4 CM_TYPE_UINT rfl (by dsimp only; omega)
    unfold cmWriteVersion cmWriteU32
    rw [hnos]
    dsimp only
    rw [if_neg (by decide)]

/-- Witness for C8: `cmWriteVersion 157` on a fresh 7-byte writer places the
version tag at offset 2 and `157` at offsets 3..6, and `cmReadVersion`
returns 157; on a fresh 4-byte writer the write fails with `NO_SPACE`. -/
theorem c8_version_patch_witness :
    (cmWriteVersion (cmGetWriter (List.replicate 7 0) 7) 157).usedSize = 7 ∧
    (cmWriteVersion (cmGetWriter (List.replicate 7 0) 7) 157).buffer.getD 2 0
      = CM_VERSION ∧
    cmReadVersion ⟨(cmWriteVersion (cmGetWriter (List.replicate 7 0) 7)
        157).buffer, 7, 2, CM_ERROR_NONE⟩ =
      (⟨(cmWriteVersion (cmGetWriter (List.replicate 7 0) 7) 157).buffer, 7, 7,
        CM_ERROR_NONE⟩, 157) ∧
    cmWriteVersion (cmGetWriter (List.replicate 4 0) 4) 157 =
      { cmGetWriter (List.replicate 4 0) 4 with
          firstError := CM_ERROR_NO_SPACE } := by
  have h := c8_version_patch (cmGetWriter (List.replicate 7 0) 7) 157
    (by norm_num) (by decide) (by decide) (by decide)
  have h5 := h.1 (by decide)
  have h2 := c8_version_patch (cmGetWriter (List.replicate 4 0) 4) 157
    (by norm_num) (by decide) (by decide) (by decide)
  refine ⟨?_, ?_, ?_, h2.2 (by decide)⟩
  · simpa using h5.2.1
  · have := h5.2.2.1
    rw [h5.2.1] at this
    simpa using this
  · have := h5.2.2.2.2 ⟨(cmWriteVersion (cmGetWriter (List.replicate 7 0) 7)
        157).buffer, 7, 2, CM_ERROR_NONE⟩ rfl (by decide) (by decide) rfl
    simpa using this

/-! ## Claim C9 -/

/-- C9 (code bug): `cmGetReader` evaluates `*(uint16_t *) m` before the
`size < 2` test, so over a 0- or 1-byte allocation the 2-byte marker load is
an out-of-bounds access (modelled by `none`); for an allocation of at least
2 bytes the length test and marker comparison then decide `NO_ENDIAN`
exactly as the claim states. -/
theorem c9_marker_load_oob_bug :
    cmGetReader [] 0 = none ∧ cmGetReader [0] 1 = none ∧
    cmGetReader [0, 0] 2 =
      some ⟨[0, 0], 2, 0, CM_ERROR_NO_ENDIAN⟩ := by decide

/-! ## Claim C10 -/

/-- C10 (code bug): one iteration of the `convertEndianness` loop on the
truncated region `[0x07]` of size 1 (a `uint64` tag with no payload) reverses
8 bytes beyond the 1-byte region (final offset 9) and wraps the `uint32` size
counter past zero to `2^32 - 8`, instead of terminating without touching
bytes outside the region. -/
theorem c10_normalizer_wrap_bug :
    convStep [7] 0 1 = some ([7, 0, 0, 0, 0, 0, 0, 0, 0], 9, 4294967288) ∧
    1 < 4294967288 ∧ 1 < 9 := by decide

/-! ## Claim C5: write items, their encodings and the foreign image

`WItem` describes one encoded field of a message: a scalar tag with its
payload bytes, an array tag with its stored count and flat element bytes, or
a version field. `encItem` is the byte image a successful write leaves in the
buffer (in the producer's native order). `swapItem` is modelled from the
spec: the foreign-endianness image of the same field, with the bytes of every
multi-byte field reversed — scalar payloads, array count fields, each array
element, version payloads. -/

inductive WItem where
  | scalar (type len : Nat) (payload : List Nat)
  | arr (itemType itemSize cnt : Nat) (bytes : List Nat)
  | version (v : Nat)
deriving DecidableEq, Repr

def encItem : WItem → List Nat
  | .scalar type len payload => getTypeFlag type len :: payload
  | .arr t s cnt bytes => getTypeFlag (CM_ARRAY ||| t) s :: (toLE 4 cnt ++ bytes)
  | .version v => CM_VERSION :: toLE 4 v

/-- Reverse each of `n` chunks of `s` bytes. -/
def swapChunks (s : Nat) : Nat → List Nat → List Nat
  | 0, bs => bs
  | n + 1, bs => (bs.take s).reverse ++ swapChunks s n (bs.drop s)

/-- Modelled from the spec: the foreign-endianness image of one field
(tag bytes unchanged, every multi-byte field byte-reversed). -/
def swapItem : WItem → List Nat
  | .scalar type len payload => getTypeFlag type len :: payload.reverse
  | .arr t s cnt bytes =>
      getTypeFlag (CM_ARRAY ||| t) s :: ((toLE 4 cnt).reverse ++ swapChunks s cnt bytes)
  | .version v => CM_VERSION :: (toLE 4 v).reverse

def encItems : List WItem → List Nat
  | [] => []
  | it :: rest => encItem it ++ encItems rest

def swapItems : List WItem → List Nat
  | [] => []
  | it :: rest => swapItem it ++ swapItems rest

/-- Well-formed fields: a recognized scalar type code, a supported width, the
payload of declared size, and an array count that fits in its `uint32` field. -/
def WFItem : WItem → Prop
  | .scalar type len payload =>
      (type = CM_TYPE_UINT ∨ type = CM_TYPE_INT ∨ type = CM_TYPE_FLOAT ∨
        type = CM_TYPE_BOOL ∨ type = CM_TYPE_CHAR) ∧
      (len = 1 ∨ len = 2 ∨ len = 4 ∨ len = 8) ∧ payload.length = len
  | .arr t s cnt bytes =>
      (t = CM_TYPE_UINT ∨ t = CM_TYPE_INT ∨ t = CM_TYPE_FLOAT ∨
        t = CM_TYPE_BOOL ∨ t = CM_TYPE_CHAR) ∧
      (s = 1 ∨ s = 2 ∨ s = 4 ∨ s = 8) ∧
      cnt < 4294967296 ∧ bytes.length = cnt * s
  | .version _ => True

set_option maxHeartbeats 1600000 in
theorem scalarItem_flag_facts (type len : Nat)
    (ht : type = CM_TYPE_UINT ∨ type = CM_TYPE_INT ∨ type = CM_TYPE_FLOAT ∨
      type = CM_TYPE_BOOL ∨ type = CM_TYPE_CHAR)
    (hl : len = 1 ∨ len = 2 ∨ len = 4 ∨ len = 8) :
    isArray (getTypeFlag type len) = false ∧
    isVersion (getTypeFlag type len) = false ∧
    isSingleValue (getTypeFlag type len) = true ∧
    1 <<< (getTypeFlag type len &&& 0x03) = len := by
  rcases ht with rfl | rfl | rfl | rfl | rfl <;>
    rcases hl with rfl | rfl | rfl | rfl <;> decide

set_option maxHeartbeats 1600000 in
theorem arrItem_flag_facts (t s : Nat)
    (ht : t = CM_TYPE_UINT ∨ t = CM_TYPE_INT ∨ t = CM_TYPE_FLOAT ∨
      t = CM_TYPE_BOOL ∨ t = CM_TYPE_CHAR)
    (hs : s = 1 ∨ s = 2 ∨ s = 4 ∨ s = 8) :
    isArray (getTypeFlag (CM_ARRAY ||| t) s) = true ∧
    1 <<< (getTypeFlag (CM_ARRAY ||| t) s &&& 0x03) = s := by
  rcases ht with rfl | rfl | rfl | rfl | rfl <;>
    rcases hs with rfl | rfl | rfl | rfl <;> decide

theorem version_flag_facts :
    isArray CM_VERSION = false ∧ isVersion CM_VERSION = true := by decide

theorem swapChunks_length (s : Nat) :
    ∀ (n : Nat) (bs : List Nat), (swapChunks s n bs).length = bs.length := by
  intro n
  induction n with
  | zero => intro bs; rfl
  | succ n ih =>
      intro bs
      simp only [swapChunks, List.length_append, List.length_reverse, ih,
        List.length_take, List.length_drop]
      omega

theorem swapItem_length (it : WItem) :
    (swapItem it).length = (encItem it).length := by
  cases it <;>
    simp [swapItem, encItem, swapChunks_length, length_toLE]

theorem swapItems_length (items : List WItem) :
    (swapItems items).length = (encItems items).length := by
  induction items with
  | nil => rfl
  | cons it rest ih =>
      simp [swapItems, encItems, swapItem_length, ih]

theorem encItem_length_pos (it : WItem) : 1 ≤ (encItem it).length := by
  cases it <;> simp [encItem]

theorem items_length_le_encItems (items : List WItem) :
    items.length ≤ (encItems items).length := by
  induction items with
  | nil => simp [encItems]
  | cons it rest ih =>
      simp only [encItems, List.length_append, List.length_cons]
      have := encItem_length_pos it
      omega

/-! ## Conversion of the foreign image back to the native encoding -/

theorem invChunks_one (d : List Nat) (off size L : Nat) :
    invChunks d off size L 1 =
      (inverseByteOrder d off L, off + L, sub32 size L) := rfl

theorem inverseByteOrder_append (pre x suf : List Nat) (n : Nat)
    (hx : x.length = n) :
    inverseByteOrder (pre ++ (x ++ suf)) pre.length n =
      pre ++ (x.reverse ++ suf) := by
  unfold inverseByteOrder
  have hl : loadBytes (pre ++ (x ++ suf)) pre.length n = x := by
    rw [← hx]; exact loadBytes_append pre x suf
  have hdrop : (x ++ suf).drop (x.reverse.length) = suf := by
    rw [List.length_reverse]
    exact List.drop_left x suf
  rw [hl, storeBytes_append, hdrop]

theorem invChunks_swapChunks (s : Nat) (hs : 1 ≤ s) :
    ∀ (cnt : Nat) (bytes pre suf : List Nat) (size : Nat),
    bytes.length = cnt * s → cnt * s ≤ size → size < 4294967296 →
    invChunks (pre ++ (swapChunks s cnt bytes ++ suf)) pre.length size s cnt =
      (pre ++ (bytes ++ suf), pre.length + cnt * s, size - cnt * s) := by
  intro cnt
  induction cnt with
  | zero =>
      intro bytes pre suf size hb _ _
      have hbn : bytes = [] := List.eq_nil_of_length_eq_zero (by omega)
      subst hbn
      simp [invChunks, swapChunks]
  | succ n ih =>
      intro bytes pre suf size hb hsz h32
      have hmul : (n + 1) * s = n * s + s := by ring
      have htake : (bytes.take s).length = s := by
        simp [List.length_take]
        omega
      have hrev : ((bytes.take s).reverse).length = s := by simp [htake]
      simp only [swapChunks, invChunks, List.append_assoc]
      have hinv := inverseByteOrder_append pre ((bytes.take s).reverse)
        (swapChunks s n (bytes.drop s) ++ suf) s hrev
      rw [hinv, List.reverse_reverse]
      have hsub : sub32 size s = size - s := sub32_sub size s (by omega) h32
      rw [hsub]
      have hshape : pre ++ (bytes.take s ++ (swapChunks s n (bytes.drop s) ++ suf))
          = (pre ++ bytes.take s) ++ (swapChunks s n (bytes.drop s) ++ suf) := by
        simp
      have hoff : pre.length + s = (pre ++ bytes.take s).length := by
        simp [htake]
      rw [hshape, hoff]
      have hdlen : (bytes.drop s).length = n * s := by
        simp [List.length_drop]
        omega
      have := ih (bytes.drop s) (pre ++ bytes.take s) suf (size - s) hdlen
        (by omega) (by omega)
      rw [this]
      have hre0 : bytes.take s ++ (bytes.drop s ++ suf) = bytes ++ suf := by
        rw [← List.append_assoc, List.take_append_drop]
      have hre : (pre ++ bytes.take s) ++ (bytes.drop s ++ suf) =
          pre ++ (bytes ++ suf) := by
        rw [List.append_assoc, hre0]
      rw [hre]
      have hl1 : (pre ++ bytes.take s).length + n * s =
          pre.length + (n + 1) * s := by
        rw [List.length_append, htake, hmul]
        ring
      have hl2 : size - s - n * s = size - (n + 1) * s := by omega
      rw [hl1, hl2]

theorem convStep_item (it : WItem) (hwf : WFItem it) (pre suf : List Nat)
    (size : Nat) (hsz : (encItem it).length ≤ size) (h32 : size < 4294967296) :
    convStep (pre ++ (swapItem it ++ suf)) pre.length size =
      some (pre ++ (encItem it ++ suf), pre.length + (encItem it).length,
        size - (encItem it).length) := by
  cases it with
  | scalar type len payload =>
      obtain ⟨ht, hl, hplen⟩ := hwf
      obtain ⟨hA, hV, hS, hL⟩ := scalarItem_flag_facts type len ht hl
      have hlen1 : (encItem (.scalar type len payload)).length = 1 + len := by
        simp [encItem, hplen, Nat.add_comm]
      rw [hlen1] at hsz ⊢
      have hflag : (pre ++ (swapItem (.scalar type len payload) ++ suf)).getD
          pre.length 0 = getTypeFlag type len := by
        simp only [swapItem, List.cons_append]
        exact getD_append_mid pre _ _
      have hd : pre ++ (swapItem (.scalar type len payload) ++ suf) =
          (pre ++ [getTypeFlag type len]) ++ (payload.reverse ++ suf) := by
        simp [swapItem]
      have hinv := inverseByteOrder_append (pre ++ [getTypeFlag type len])
        payload.reverse suf len (by simp [hplen])
      have hplen1 : (pre ++ [getTypeFlag type len]).length = pre.length + 1 := by
        simp
      rw [hplen1, List.reverse_reverse] at hinv
      have hs1 : sub32 size 1 = size - 1 := sub32_sub size 1 (by omega) h32
      have hs2 : sub32 (size - 1) len = size - 1 - len :=
        sub32_sub (size - 1) len (by omega) (by omega)
      unfold convStep
      simp only [hflag, hL, hA, hV, hS, Bool.false_eq_true, if_false,
        eq_self_iff_true, if_true]
      rw [hs1, invChunks_one, hd, hinv, hs2]
      have hres : (pre ++ [getTypeFlag type len]) ++ (payload ++ suf) =
          pre ++ (encItem (.scalar type len payload) ++ suf) := by
        simp [encItem]
      rw [hres]
      have h1 : pre.length + 1 + len = pre.length + (1 + len) := by omega
      have h2 : size - 1 - len = size - (1 + len) := by omega
      rw [h1, h2]
  | arr t s cnt bytes =>
      obtain ⟨ht, hs, hcnt, hblen⟩ := hwf
      obtain ⟨hA, hL⟩ := arrItem_flag_facts t s ht hs
      have hs1' : 1 ≤ s := by rcases hs with rfl | rfl | rfl | rfl <;> omega
      have hlen1 : (encItem (.arr t s cnt bytes)).length = 1 + (4 + cnt * s) := by
        simp [encItem, hblen, length_toLE]
        omega
      rw [hlen1] at hsz ⊢
      have hflag : (pre ++ (swapItem (.arr t s cnt bytes) ++ suf)).getD
          pre.length 0 = getTypeFlag (CM_ARRAY ||| t) s := by
        simp only [swapItem, List.cons_append]
        exact getD_append_mid pre _ _
      have hd : pre ++ (swapItem (.arr t s cnt bytes) ++ suf) =
          (pre ++ [getTypeFlag (CM_ARRAY ||| t) s]) ++
            ((toLE 4 cnt).reverse ++ (swapChunks s cnt bytes ++ suf)) := by
        simp [swapItem]
      have hplen1 : (pre ++ [getTypeFlag (CM_ARRAY ||| t) s]).length =
          pre.length + 1 := by simp
      have hinv := inverseByteOrder_append (pre ++ [getTypeFlag (CM_ARRAY ||| t) s])
        ((toLE 4 cnt).reverse) (swapChunks s cnt bytes ++ suf) 4
        (by simp [length_toLE])
      rw [hplen1, List.reverse_reverse] at hinv
      unfold convStep
      simp only [hflag, hL, hA, eq_self_iff_true, if_true]
      rw [hd, hinv]
      have hload : loadBytes ((pre ++ [getTypeFlag (CM_ARRAY ||| t) s]) ++
          (toLE 4 cnt ++ (swapChunks s cnt bytes ++ suf))) (pre.length + 1) 4 =
          toLE 4 cnt := by
        have h := loadBytes_append (pre ++ [getTypeFlag (CM_ARRAY ||| t) s])
          (toLE 4 cnt) (swapChunks s cnt bytes ++ suf)
        rw [hplen1, length_toLE] at h
        exact h
      rw [hload, fromLE_toLE_self 4 cnt hcnt]
      have hs1 : sub32 size 1 = size - 1 := sub32_sub size 1 (by omega) h32
      have hs4 : sub32 (size - 1) 4 = size - 1 - 4 :=
        sub32_sub (size - 1) 4 (by omega) (by omega)
      rw [hs1, hs4]
      have hshape : (pre ++ [getTypeFlag (CM_ARRAY ||| t) s]) ++
          (toLE 4 cnt ++ (swapChunks s cnt bytes ++ suf)) =
          ((pre ++ [getTypeFlag (CM_ARRAY ||| t) s]) ++ toLE 4 cnt) ++
            (swapChunks s cnt bytes ++ suf) := by simp
      have hoff : pre.length + 1 + 4 =
          ((pre ++ [getTypeFlag (CM_ARRAY ||| t) s]) ++ toLE 4 cnt).length := by
        simp [length_toLE]
      rw [hshape, hoff]
      have := invChunks_swapChunks s hs1' cnt bytes
        ((pre ++ [getTypeFlag (CM_ARRAY ||| t) s]) ++ toLE 4 cnt) suf
        (size - 1 - 4) hblen (by omega) (by omega)
      rw [this]
      have hre : ((pre ++ [getTypeFlag (CM_ARRAY ||| t) s]) ++ toLE 4 cnt) ++
          (bytes ++ suf) = pre ++ (encItem (.arr t s cnt bytes) ++ suf) := by
        simp [encItem]
      rw [hre]
      have h1 : ((pre ++ [getTypeFlag (CM_ARRAY ||| t) s]) ++ toLE 4 cnt).length
          + cnt * s = pre.length + (1 + (4 + cnt * s)) := by
        simp [length_toLE]
        omega
      have h2 : size - 1 - 4 - cnt * s = size - (1 + (4 + cnt * s)) := by omega
      rw [h1, h2]
  | version v =>
      obtain ⟨hA, hV⟩ := version_flag_facts
      have hlen1 : (encItem (.version v)).length = 1 + 4 := by
        simp [encItem, length_toLE]
      rw [hlen1] at hsz ⊢
      have hflag : (pre ++ (swapItem (.version v) ++ suf)).getD
          pre.length 0 = CM_VERSION := by
        simp only [swapItem, List.cons_append]
        exact getD_append_mid pre _ _
      have hd : pre ++ (swapItem (.version v) ++ suf) =
          (pre ++ [CM_VERSION]) ++ ((toLE 4 v).reverse ++ suf) := by
        simp [swapItem]
      have hinv := inverseByteOrder_append (pre ++ [CM_VERSION])
        ((toLE 4 v).reverse) suf 4 (by simp [length_toLE])
      have hplen1 : (pre ++ [CM_VERSION]).length = pre.length + 1 := by simp
      rw [hplen1, List.reverse_reverse] at hinv
      have hs1 : sub32 size 1 = size - 1 := sub32_sub size 1 (by omega) h32
      have hs4 : sub32 (size - 1) 4 = size - 1 - 4 :=
        sub32_sub (size - 1) 4 (by omega) (by omega)
      unfold convStep
      simp only [hflag, hA, hV, Bool.false_eq_true, if_false,
        eq_self_iff_true, if_true]
      rw [hs1, invChunks_one, hd, hinv, hs4]
      have hres : (pre ++ [CM_VERSION]) ++ (toLE 4 v ++ suf) =
          pre ++ (encItem (.version v) ++ suf) := by
        simp [encItem]
      rw [hres]
      have h1 : pre.length + 1 + 4 = pre.length + (1 + 4) := by omega
      have h2 : size - 1 - 4 = size - (1 + 4) := by omega
      rw [h1, h2]

theorem convLoop_encodes : ∀ (items : List WItem) (fuel : Nat) (pre : List Nat),
    (∀ it ∈ items, WFItem it) → items.length ≤ fuel →
    (encItems items).length < 4294967296 →
    convLoop fuel (pre ++ swapItems items) pre.length (encItems items).length =
      (pre ++ encItems items, true) := by
  intro items
  induction items with
  | nil =>
      intro fuel pre _ _ _
      cases fuel <;> simp [convLoop, swapItems, encItems]
  | cons it rest ih =>
      intro fuel pre hwf hfuel h32
      match fuel with
      | 0 => simp at hfuel
      | f + 1 =>
        have hne : (encItems (it :: rest)).length ≠ 0 := by
          simp only [encItems, List.length_append]
          have := encItem_length_pos it
          omega
        simp only [convLoop, if_neg hne]
        have hd : pre ++ swapItems (it :: rest) =
            pre ++ (swapItem it ++ swapItems rest) := rfl
        have hstep := convStep_item it (hwf it (by simp)) pre (swapItems rest)
          ((encItems (it :: rest)).length)
          (by simp only [encItems, List.length_append]; omega) h32
        rw [hd]
        simp only [hstep]
        have hre : pre ++ (encItem it ++ swapItems rest) =
            (pre ++ encItem it) ++ swapItems rest := by simp
        have hoff : pre.length + (encItem it).length =
            (pre ++ encItem it).length := by simp
        have hsz : (encItems (it :: rest)).length - (encItem it).length =
            (encItems rest).length := by
          simp only [encItems, List.length_append]
          omega
        rw [hre, hoff, hsz]
        have := ih f (pre ++ encItem it) (fun x hx => hwf x (by simp [hx]))
          (by simp at hfuel; omega)
          (by simp only [encItems, List.length_append] at h32; omega)
        rw [this]
        simp [encItems]

theorem convertEndianness_swapItems (items : List WItem)
    (hwf : ∀ it ∈ items, WFItem it)
    (h32 : (encItems items).length < 4294967296) :
    convertEndianness (swapItems items) (encItems items).length =
      (encItems items, true) := by
  unfold convertEndianness
  have := convLoop_encodes items ((encItems items).length) [] hwf
    (le_trans (items_length_le_encItems items) le_rfl) h32
  simpa using this

/-! ## Write-operation sequences -/

/-- One invocation of a write operation: a scalar write (any of the twelve
wrappers, via `ScalarCase`), a typed-array write, or a version write. -/
inductive WOp where
  | scalar (sc : ScalarCase)
  | arr (itemType itemSize : Nat) (data : List Nat) (cnt : Nat)
  | ver (v : Nat)
deriving DecidableEq, Repr

def applyOp (w : Writer) : WOp → Writer
  | .scalar sc => writeScalar w sc
  | .arr t s data cnt => cmWriteTypedArray w t s data cnt
  | .ver v => cmWriteVersion w v

def runOps (w : Writer) : List WOp → Writer
  | [] => w
  | op :: rest => runOps (applyOp w op) rest

/-- The field a successful write leaves in the message: for a char array the
stored count includes the appended NUL element. -/
def opToItem : WOp → WItem
  | .scalar sc => .scalar sc.typeOf sc.width (encScalar sc)
  | .arr t s data cnt =>
      if t = CM_TYPE_CHAR then .arr t s (cnt + 1) (loadBytes data 0 (cnt * s) ++ [0])
      else .arr t s cnt (loadBytes data 0 (cnt * s))
  | .ver v => .version v

/-- Well-formed write invocations: array writes use a supported element width,
an aligned scalar type code (char only with width 1, matching the NUL-element
layout the char path produces), and a count whose stored value fits `uint32`.
Scalar and version writes are unrestricted. -/
def goodOp : WOp → Prop
  | .scalar _ => True
  | .arr t s _ cnt =>
      (t = CM_TYPE_UINT ∨ t = CM_TYPE_INT ∨ t = CM_TYPE_FLOAT ∨
        t = CM_TYPE_BOOL ∨ t = CM_TYPE_CHAR) ∧
      (s = 1 ∨ s = 2 ∨ s = 4 ∨ s = 8) ∧
      (t = CM_TYPE_CHAR → s = 1) ∧ cnt + 1 < 4294967296
  | .ver _ => True

theorem goodOp_WFItem (op : WOp) (hop : goodOp op) : WFItem (opToItem op) := by
  cases op with
  | scalar sc =>
      refine ⟨?_, ?_, encScalar_length sc⟩ <;>
        cases sc <;> simp [ScalarCase.typeOf, ScalarCase.width, CM_TYPE_UINT,
          CM_TYPE_INT, CM_TYPE_FLOAT, CM_TYPE_BOOL, CM_TYPE_CHAR]
  | arr t s data cnt =>
      obtain ⟨ht, hs, hchar, hcnt⟩ := hop
      by_cases h20 : t = CM_TYPE_CHAR
      · have hs1 := hchar h20
        subst hs1
        simp only [opToItem, if_pos h20]
        exact ⟨ht, hs, by omega, by simp [loadBytes_length]⟩
      · simp only [opToItem, if_neg h20]
        exact ⟨ht, hs, by omega, by simp [loadBytes_length, Nat.mul_comm]⟩
  | ver v => trivial

theorem applyOp_sticky (op : WOp) (w : Writer)
    (h : w.firstError ≠ CM_ERROR_NONE) :
    (applyOp w op).firstError ≠ CM_ERROR_NONE := by
  cases op with
  | scalar sc =>
      rw [show applyOp w (.scalar sc) = writeScalar w sc from rfl, writeScalar_eq]
      unfold writeValue
      rw [if_pos h]
      exact h
  | arr t s data cnt =>
      rw [show applyOp w (.arr t s data cnt) = cmWriteTypedArray w t s data cnt
        from rfl]
      unfold cmWriteTypedArray
      split_ifs <;>
        first
          | (simp only [ensureSpace, if_pos h]; exact h)
          | simp [CM_ERROR_INVALID_ARG, CM_ERROR_NONE]
  | ver v =>
      rw [show applyOp w (.ver v) = cmWriteVersion w v from rfl]
      unfold cmWriteVersion cmWriteU32
      unfold writeValue
      rw [if_pos h]
      dsimp only
      rw [if_neg h]
      exact h

theorem runOps_sticky (ops : List WOp) :
    ∀ w : Writer, w.firstError ≠ CM_ERROR_NONE →
    (runOps w ops).firstError ≠ CM_ERROR_NONE := by
  induction ops with
  | nil => intro w h; exact h
  | cons op rest ih => intro w h; exact ih _ (applyOp_sticky op w h)

/-- Shared prefix of the typed-array write: the tag byte store followed by the
4-byte count `writeBytes`. -/
theorem typedArrayHead (p rest : List Nat) (flagv cnt' : Nat)
    (hsp : 1 + 4 ≤ rest.length) :
    (writeBytes ⟨storeBytes (p ++ rest) p.length [flagv],
        (p ++ rest).length, p.length + 1, CM_ERROR_NONE⟩ (toLE 4 cnt') 4).1 =
      ⟨((p ++ [flagv]) ++ toLE 4 cnt') ++ rest.drop 5, (p ++ rest).length,
        p.length + 5, CM_ERROR_NONE⟩ := by
  have hstore : storeBytes (p ++ rest) p.length [flagv] =
      (p ++ [flagv]) ++ rest.drop 1 := by
    rw [storeBytes_append]
    simp
  have h1 : p.length + 1 = (p ++ [flagv]).length := by simp
  have hld : loadBytes (toLE 4 cnt') 0 4 = toLE 4 cnt' := by
    have := loadBytes_self (toLE 4 cnt')
    rw [length_toLE] at this
    exact this
  rw [hstore, h1,
    writeBytes_ok (p ++ [flagv]) (rest.drop 1) (toLE 4 cnt')
      (p ++ rest).length 4 (by simp; omega)]
  dsimp only
  rw [hld, List.drop_drop]
  simp [Writer.mk.injEq]

/-- A successful write appends exactly the encoding of its item to the used
prefix of the buffer and advances the cursor by its length. -/
theorem applyOp_ok (op : WOp) (hop : goodOp op) (p rest : List Nat)
    (hres : (applyOp ⟨p ++ rest, (p ++ rest).length, p.length,
        CM_ERROR_NONE⟩ op).firstError = CM_ERROR_NONE) :
    (encItem (opToItem op)).length ≤ rest.length ∧
    applyOp ⟨p ++ rest, (p ++ rest).length, p.length, CM_ERROR_NONE⟩ op =
      ⟨(p ++ encItem (opToItem op)) ++ rest.drop (encItem (opToItem op)).length,
        (p ++ rest).length, p.length + (encItem (opToItem op)).length,
        CM_ERROR_NONE⟩ := by
  cases op with
  | scalar sc =>
      obtain ⟨hflag, _, _⟩ := scalar_flag_facts sc
      have hEl : (encItem (opToItem (.scalar sc))).length = 1 + sc.width := by
        simp [opToItem, encItem, encScalar_length sc, Nat.add_comm]
      by_cases hsp : 1 + sc.width ≤ (p ++ rest).length - p.length
      · have hwv := writeValue_ok p rest (encScalar sc) (p ++ rest).length
          sc.width sc.typeOf hsp hflag (encScalar_length sc)
        refine ⟨by rw [hEl]; simp at hsp ⊢; omega, ?_⟩
        rw [show applyOp ⟨p ++ rest, (p ++ rest).length, p.length,
            CM_ERROR_NONE⟩ (.scalar sc) =
          writeScalar ⟨p ++ rest, (p ++ rest).length, p.length,
            CM_ERROR_NONE⟩ sc from rfl, writeScalar_eq, hwv, hEl]
        simp only [opToItem, encItem]
      · exfalso
        have hnos := writeValue_noSpace ⟨p ++ rest, (p ++ rest).length,
          p.length, CM_ERROR_NONE⟩ (encScalar sc) sc.width sc.typeOf rfl
          (by dsimp only; omega)
        rw [show applyOp ⟨p ++ rest, (p ++ rest).length, p.length,
            CM_ERROR_NONE⟩ (.scalar sc) =
          writeScalar ⟨p ++ rest, (p ++ rest).length, p.length,
            CM_ERROR_NONE⟩ sc from rfl, writeScalar_eq, hnos] at hres
        simp [CM_ERROR_NO_SPACE, CM_ERROR_NONE] at hres
  | ver v =>
      have hEl : (encItem (opToItem (.ver v))).length = 1 + 4 := by
        simp [opToItem, encItem, length_toLE]
      by_cases hsp : 1 + 4 ≤ (p ++ rest).length - p.length
      · have hver := cmWriteVersion_ok p rest v hsp
        refine ⟨by rw [hEl]; simp at hsp ⊢; omega, ?_⟩
        rw [show applyOp ⟨p ++ rest, (p ++ rest).length, p.length,
            CM_ERROR_NONE⟩ (.ver v) =
          cmWriteVersion ⟨p ++ rest, (p ++ rest).length, p.length,
            CM_ERROR_NONE⟩ v from rfl, hver, hEl]
        simp only [opToItem, encItem]
      · exfalso
        have hnos := writeValue_noSpace ⟨p ++ rest, (p ++ rest).length,
          p.length, CM_ERROR_NONE⟩ (toLE 4 v) 4 CM_TYPE_UINT rfl
          (by dsimp only; omega)
        rw [show applyOp ⟨p ++ rest, (p ++ rest).length, p.length,
            CM_ERROR_NONE⟩ (.ver v) =
          cmWriteVersion ⟨p ++ rest, (p ++ rest).length, p.length,
            CM_ERROR_NONE⟩ v from rfl] at hres
        unfold cmWriteVersion cmWriteU32 at hres
        rw [hnos] at hres
        dsimp only at hres
        rw [if_neg (by decide)] at hres
        simp [CM_ERROR_NO_SPACE, CM_ERROR_NONE] at hres
  | arr t s data cnt =>
      obtain ⟨ht, hs, hchar, hcnt⟩ := hop
      have hg1 : ¬ (s > 0x08 ∨ s = 0) := by
        rcases hs with rfl | rfl | rfl | rfl <;> decide
      have hg2 : ¬ (t > 0x14 ∨ t < 0x04) := by
        rcases ht with rfl | rfl | rfl | rfl | rfl <;> decide
      rw [show applyOp ⟨p ++ rest, (p ++ rest).length, p.length, CM_ERROR_NONE⟩
          (.arr t s data cnt) =
        cmWriteTypedArray ⟨p ++ rest, (p ++ rest).length, p.length,
          CM_ERROR_NONE⟩ t s data cnt from rfl] at hres ⊢
      unfold cmWriteTypedArray at hres ⊢
      rw [if_neg hg1, if_neg hg2] at hres ⊢
      by_cases h20 : t = CM_TYPE_CHAR
      · have hs1 := hchar h20
        subst h20
        subst hs1
        simp only [eq_self_iff_true, if_true] at hres ⊢
        have hmc : cnt * 1 = 1 * cnt := Nat.mul_comm cnt 1
        have hEl : (encItem (opToItem (.arr CM_TYPE_CHAR 1 data cnt))).length
            = 1 + 4 + 1 * (cnt + 1) := by
          simp [opToItem, encItem, length_toLE, loadBytes_length]
          omega
        by_cases hsp : 1 + 4 + 1 * (cnt + 1) ≤ (p ++ rest).length - p.length
        · have he : ensureSpace ⟨p ++ rest, (p ++ rest).length, p.length,
              CM_ERROR_NONE⟩ (1 + 4 + 1 * (cnt + 1)) =
              (⟨p ++ rest, (p ++ rest).length, p.length, CM_ERROR_NONE⟩,
                true) := by
            unfold ensureSpace
            rw [if_neg (by simp [CM_ERROR_NONE]), if_neg (by dsimp only; omega)]
          refine ⟨by rw [hEl]; simp at hsp ⊢; omega, ?_⟩
          simp only [he]
          rw [typedArrayHead p rest _ (cnt + 1) (by simp at hsp ⊢; omega)]
          have hc : (cnt + 1 - 1) * 1 = cnt * 1 := by omega
          rw [hc]
          have hP2 : p.length + 5 =
              ((p ++ [getTypeFlag (CM_ARRAY ||| CM_TYPE_CHAR) 1]) ++
                toLE 4 (cnt + 1)).length := by
            simp [length_toLE]
          rw [hP2, writeBytes_ok ((p ++ [getTypeFlag (CM_ARRAY ||| CM_TYPE_CHAR) 1])
            ++ toLE 4 (cnt + 1)) (rest.drop 5) data (p ++ rest).length (cnt * 1)
            (by simp [length_toLE] at hsp ⊢; omega)]
          dsimp only
          have hP3 : ((p ++ [getTypeFlag (CM_ARRAY ||| CM_TYPE_CHAR) 1]) ++
              toLE 4 (cnt + 1)).length + cnt * 1 =
              (((p ++ [getTypeFlag (CM_ARRAY ||| CM_TYPE_CHAR) 1]) ++
                toLE 4 (cnt + 1)) ++ loadBytes data 0 (cnt * 1)).length := by
            simp [loadBytes_length]
            omega
          rw [hP3, storeBytes_append, hEl, Writer.mk.injEq]
          refine ⟨?_, rfl, ?_, rfl⟩
          · simp only [opToItem, eq_self_iff_true, if_true, encItem,
              List.drop_drop, List.length_singleton]
            have hidx : 5 + cnt * 1 + 1 = 1 + 4 + 1 * (cnt + 1) := by omega
            rw [hidx]
            simp
          · simp [length_toLE, loadBytes_length]
            omega
        · exfalso
          have he : ensureSpace ⟨p ++ rest, (p ++ rest).length, p.length,
              CM_ERROR_NONE⟩ (1 + 4 + 1 * (cnt + 1)) =
              ({ buffer := p ++ rest, bufferSize := (p ++ rest).length,
                 usedSize := p.length, firstError := CM_ERROR_NO_SPACE },
                false) := by
            unfold ensureSpace
            rw [if_neg (by simp [CM_ERROR_NONE]), if_pos (by dsimp only; omega)]
          simp only [he] at hres
          simp [CM_ERROR_NO_SPACE, CM_ERROR_NONE] at hres
      · simp only [if_neg h20] at hres ⊢
        have hmc : cnt * s = s * cnt := Nat.mul_comm cnt s
        have hEl : (encItem (opToItem (.arr t s data cnt))).length
            = 1 + 4 + s * cnt := by
          simp [opToItem, if_neg h20, encItem, length_toLE, loadBytes_length]
          omega
        by_cases hsp : 1 + 4 + s * cnt ≤ (p ++ rest).length - p.length
        · have he : ensureSpace ⟨p ++ rest, (p ++ rest).length, p.length,
              CM_ERROR_NONE⟩ (1 + 4 + s * cnt) =
              (⟨p ++ rest, (p ++ rest).length, p.length, CM_ERROR_NONE⟩,
                true) := by
            unfold ensureSpace
            rw [if_neg (by simp [CM_ERROR_NONE]), if_neg (by dsimp only; omega)]
          refine ⟨by rw [hEl]; simp at hsp ⊢; omega, ?_⟩
          simp only [he]
          rw [typedArrayHead p rest _ cnt (by simp at hsp ⊢; omega)]
          have hP2 : p.length + 5 =
              ((p ++ [getTypeFlag (CM_ARRAY ||| t) s]) ++ toLE 4 cnt).length := by
            simp [length_toLE]
          rw [hP2, writeBytes_ok ((p ++ [getTypeFlag (CM_ARRAY ||| t) s])
            ++ toLE 4 cnt) (rest.drop 5) data (p ++ rest).length (cnt * s)
            (by simp [length_toLE] at hsp ⊢; omega)]
          rw [hEl, Writer.mk.injEq]
          refine ⟨?_, rfl, ?_, rfl⟩
          · simp only [opToItem, if_neg h20, encItem, List.drop_drop]
            have hidx : 5 + cnt * s = 1 + 4 + s * cnt := by omega
            rw [hidx]
            simp
          · simp [length_toLE]
            omega
        · exfalso
          have he : ensureSpace ⟨p ++ rest, (p ++ rest).length, p.length,
              CM_ERROR_NONE⟩ (1 + 4 + s * cnt) =
              ({ buffer := p ++ rest, bufferSize := (p ++ rest).length,
                 usedSize := p.length, firstError := CM_ERROR_NO_SPACE },
                false) := by
            unfold ensureSpace
            rw [if_neg (by simp [CM_ERROR_NONE]), if_pos (by dsimp only; omega)]
          simp only [he] at hres
          simp [CM_ERROR_NO_SPACE, CM_ERROR_NONE] at hres

/-- A sequence of writes that ends with no error leaves, after the existing
prefix, exactly the concatenated encodings of its items. -/
theorem runOps_encodes : ∀ (ops : List WOp) (p rest : List Nat),
    (∀ op ∈ ops, goodOp op) →
    (runOps ⟨p ++ rest, (p ++ rest).length, p.length, CM_ERROR_NONE⟩
      ops).firstError = CM_ERROR_NONE →
    (encItems (ops.map opToItem)).length ≤ rest.length ∧
    runOps ⟨p ++ rest, (p ++ rest).length, p.length, CM_ERROR_NONE⟩ ops =
      ⟨(p ++ encItems (ops.map opToItem)) ++
          rest.drop (encItems (ops.map opToItem)).length,
        (p ++ rest).length, p.length + (encItems (ops.map opToItem)).length,
        CM_ERROR_NONE⟩ := by
  intro ops
  induction ops with
  | nil =>
      intro p rest _ _
      refine ⟨by simp [encItems], ?_⟩
      simp [runOps, encItems]
  | cons op rest0 ih =>
      intro p rest hgood hfin
      have hw1 : (applyOp ⟨p ++ rest, (p ++ rest).length, p.length,
          CM_ERROR_NONE⟩ op).firstError = CM_ERROR_NONE := by
        by_contra hne
        exact runOps_sticky rest0 _ hne hfin
      obtain ⟨hle, happ⟩ := applyOp_ok op (hgood op (by simp)) p rest hw1
      have hrec : (⟨(p ++ encItem (opToItem op)) ++
          rest.drop (encItem (opToItem op)).length, (p ++ rest).length,
          p.length + (encItem (opToItem op)).length, CM_ERROR_NONE⟩ : Writer) =
          ⟨(p ++ encItem (opToItem op)) ++
            rest.drop (encItem (opToItem op)).length,
          ((p ++ encItem (opToItem op)) ++
            rest.drop (encItem (opToItem op)).length).length,
          (p ++ encItem (opToItem op)).length, CM_ERROR_NONE⟩ := by
        rw [Writer.mk.injEq]
        refine ⟨rfl, ?_, by simp, rfl⟩
        simp
        omega
      rw [show runOps ⟨p ++ rest, (p ++ rest).length, p.length, CM_ERROR_NONE⟩
          (op :: rest0) = runOps (applyOp ⟨p ++ rest, (p ++ rest).length,
          p.length, CM_ERROR_NONE⟩ op) rest0 from rfl, happ, hrec] at hfin ⊢
      obtain ⟨hle2, hrun⟩ := ih (p ++ encItem (opToItem op))
        (rest.drop (encItem (opToItem op)).length)
        (fun x hx => hgood x (by simp [hx])) hfin
      have hEcons : encItems ((op :: rest0).map opToItem) =
          encItem (opToItem op) ++ encItems (rest0.map opToItem) := by
        simp [encItems]
      refine ⟨?_, ?_⟩
      · rw [hEcons]
        simp only [List.length_append]
        simp only [List.length_drop] at hle2
        omega
      · rw [hrun, hEcons, Writer.mk.injEq]
        refine ⟨?_, ?_, ?_, rfl⟩
        · rw [List.drop_drop, List.length_append, ← List.append_assoc]
        · simp
          omega
        · simp
          omega

/-! ## Read-operation sequences and marker-independence

After construction, every read operation inspects only bytes at offsets at or
beyond the cursor, which never drops below 2; so two readers whose messages
agree above the 2-byte marker produce identical values and identical cursor
and error evolution. -/

inductive RVal where
  | i (v : Int)
  | n (v : Nat)
  | b (v : Bool)
  | arr (bytes : List Nat) (cnt : Nat)
deriving DecidableEq, Repr

inductive ReadOp where
  | rI8 | rU8 | rI16 | rU16 | rI32 | rU32 | rI64 | rU64
  | rF | rD | rBool | rChar
  | rArr (itemType itemSize maxItems : Nat)
  | rPeek | rPeekStr | rVer
deriving DecidableEq, Repr

def applyRead (r : Reader) : ReadOp → Reader × RVal
  | .rI8 => ((cmReadI8 r).1, .i (cmReadI8 r).2)
  | .rU8 => ((cmReadU8 r).1, .n (cmReadU8 r).2)
  | .rI16 => ((cmReadI16 r).1, .i (cmReadI16 r).2)
  | .rU16 => ((cmReadU16 r).1, .n (cmReadU16 r).2)
  | .rI32 => ((cmReadI32 r).1, .i (cmReadI32 r).2)
  | .rU32 => ((cmReadU32 r).1, .n (cmReadU32 r).2)
  | .rI64 => ((cmReadI64 r).1, .i (cmReadI64 r).2)
  | .rU64 => ((cmReadU64 r).1, .n (cmReadU64 r).2)
  | .rF => ((cmReadF r).1, .n (cmReadF r).2)
  | .rD => ((cmReadD r).1, .n (cmReadD r).2)
  | .rBool => ((cmReadBool r).1, .b (cmReadBool r).2)
  | .rChar => ((cmReadChar r).1, .n (cmReadChar r).2)
  | .rArr t s mx => ((cmReadTypedArray r t s mx).1,
      .arr (cmReadTypedArray r t s mx).2.1 (cmReadTypedArray r t s mx).2.2)
  | .rPeek => ((cmPeekArraySize r).1, .n (cmPeekArraySize r).2)
  | .rPeekStr => ((cmPeekStringLength r).1, .n (cmPeekStringLength r).2)
  | .rVer => ((cmReadVersion r).1, .n (cmReadVersion r).2)

def runReads (r : Reader) : List ReadOp → Reader × List RVal
  | [] => (r, [])
  | op :: rest =>
      ((runReads (applyRead r op).1 rest).1,
        (applyRead r op).2 :: (runReads (applyRead r op).1 rest).2)

/-- Two readers in lockstep: same size, cursor and error, cursor at or past
the marker, and identical bytes from offset 2 on. -/
def Agree (r1 r2 : Reader) : Prop :=
  r1.totalSize = r2.totalSize ∧ r1.readSize = r2.readSize ∧
  r1.firstError = r2.firstError ∧ 2 ≤ r1.readSize ∧
  r1.message.drop 2 = r2.message.drop 2

theorem getD_agree (m1 m2 : List Nat) (h : m1.drop 2 = m2.drop 2) (i : Nat)
    (hi : 2 ≤ i) : m1.getD i 0 = m2.getD i 0 := by
  have key : ∀ m : List Nat, m.getD i 0 = (m.drop 2).getD (i - 2) 0 := by
    intro m
    rw [List.getD_eq_getD_get?, List.getD_eq_getD_get?, List.get?_drop,
      show 2 + (i - 2) = i from by omega]
  rw [key m1, key m2, h]

theorem loadBytes_agree (m1 m2 : List Nat) (h : m1.drop 2 = m2.drop 2)
    (off len : Nat) (hoff : 2 ≤ off) :
    loadBytes m1 off len = loadBytes m2 off len := by
  unfold loadBytes
  exact List.map_congr_left fun i _ => getD_agree m1 m2 h (off + i) (by omega)

theorem readValue_agree (m1 m2 : List Nat) (ts rs e len type : Nat)
    (hm : m1.drop 2 = m2.drop 2) (h2 : 2 ≤ rs) :
    ∃ rs' e' o, rs ≤ rs' ∧
      readValue ⟨m1, ts, rs, e⟩ len type = (⟨m1, ts, rs', e'⟩, o) ∧
      readValue ⟨m2, ts, rs, e⟩ len type = (⟨m2, ts, rs', e'⟩, o) := by
  have hflag := getD_agree m1 m2 hm rs h2
  have hpay := loadBytes_agree m1 m2 hm (rs + 1) len (by omega)
  unfold readValue
  dsimp only
  rw [hflag, hpay]
  split_ifs <;>
    exact ⟨_, _, _, by omega, rfl, rfl⟩

theorem cmPeekArraySize_agree (m1 m2 : List Nat) (ts rs e : Nat)
    (hm : m1.drop 2 = m2.drop 2) (h2 : 2 ≤ rs) :
    ∃ e' sz,
      cmPeekArraySize ⟨m1, ts, rs, e⟩ = (⟨m1, ts, rs, e'⟩, sz) ∧
      cmPeekArraySize ⟨m2, ts, rs, e⟩ = (⟨m2, ts, rs, e'⟩, sz) := by
  have hflag := getD_agree m1 m2 hm rs h2
  have hpay := loadBytes_agree m1 m2 hm (rs + 1) 4 (by omega)
  unfold cmPeekArraySize
  dsimp only
  rw [hflag, hpay]
  split_ifs <;> exact ⟨_, _, rfl, rfl⟩

theorem cmPeekStringLength_agree (m1 m2 : List Nat) (ts rs e : Nat)
    (hm : m1.drop 2 = m2.drop 2) (h2 : 2 ≤ rs) :
    ∃ e' n,
      cmPeekStringLength ⟨m1, ts, rs, e⟩ = (⟨m1, ts, rs, e'⟩, n) ∧
      cmPeekStringLength ⟨m2, ts, rs, e⟩ = (⟨m2, ts, rs, e'⟩, n) := by
  obtain ⟨e', sz, hp1, hp2⟩ := cmPeekArraySize_agree m1 m2 ts rs e hm h2
  have hflag := getD_agree m1 m2 hm rs h2
  unfold cmPeekStringLength
  rw [hp1, hp2]
  dsimp only
  rw [hflag]
  split_ifs <;> exact ⟨_, _, rfl, rfl⟩

theorem cmReadTypedArray_agree (m1 m2 : List Nat) (ts rs e t s mx : Nat)
    (hm : m1.drop 2 = m2.drop 2) (h2 : 2 ≤ rs) :
    ∃ rs' e' bytes cnt, rs ≤ rs' ∧
      cmReadTypedArray ⟨m1, ts, rs, e⟩ t s mx = (⟨m1, ts, rs', e'⟩, bytes, cnt) ∧
      cmReadTypedArray ⟨m2, ts, rs, e⟩ t s mx = (⟨m2, ts, rs', e'⟩, bytes, cnt) := by
  obtain ⟨e', sz, hp1, hp2⟩ := cmPeekArraySize_agree m1 m2 ts rs e hm h2
  have hflag := getD_agree m1 m2 hm rs h2
  have hpay := loadBytes_agree m1 m2 hm (rs + 1 + 4) (sz * s) (by omega)
  unfold cmReadTypedArray
  rw [hp1, hp2]
  dsimp only
  rw [hflag, hpay]
  split_ifs <;> exact ⟨_, _, _, _, by omega, rfl, rfl⟩

theorem cmReadVersion_agree (m1 m2 : List Nat) (ts rs e : Nat)
    (hm : m1.drop 2 = m2.drop 2) (h2 : 2 ≤ rs) :
    ∃ rs' e' v, rs ≤ rs' ∧
      cmReadVersion ⟨m1, ts, rs, e⟩ = (⟨m1, ts, rs', e'⟩, v) ∧
      cmReadVersion ⟨m2, ts, rs, e⟩ = (⟨m2, ts, rs', e'⟩, v) := by
  have hflag := getD_agree m1 m2 hm rs h2
  have hpay := loadBytes_agree m1 m2 hm (rs + 1) 4 (by omega)
  unfold cmReadVersion checkValue
  dsimp only
  rw [hflag]
  split_ifs <;> dsimp only <;>
    first
      | exact ⟨_, _, _, by omega, rfl, rfl⟩
      | exact ⟨_, _, _, by omega, rfl, by rw [← hpay]⟩

theorem applyRead_agree (r1 r2 : Reader) (h : Agree r1 r2) (op : ReadOp) :
    (applyRead r1 op).2 = (applyRead r2 op).2 ∧
    Agree (applyRead r1 op).1 (applyRead r2 op).1 := by
  obtain ⟨m1, ts1, rs1, e1⟩ := r1
  obtain ⟨m2, ts2, rs2, e2⟩ := r2
  obtain ⟨hts, hrs, he, h2, hm⟩ := h
  dsimp only at hts hrs he h2 hm
  subst hts hrs he
  cases op with
  | rI8 =>
      obtain ⟨rs', e', o, hle, ha, hb⟩ :=
        readValue_agree m1 m2 ts1 rs1 e1 1 CM_TYPE_INT hm h2
      simp only [applyRead, cmReadI8, ha, hb]
      cases o <;> (dsimp only; exact ⟨rfl, rfl, rfl, rfl, le_trans h2 hle, hm⟩)
  | rU8 =>
      obtain ⟨rs', e', o, hle, ha, hb⟩ :=
        readValue_agree m1 m2 ts1 rs1 e1 1 CM_TYPE_UINT hm h2
      simp only [applyRead, cmReadU8, ha, hb]
      cases o <;> (dsimp only; exact ⟨rfl, rfl, rfl, rfl, le_trans h2 hle, hm⟩)
  | rI16 =>
      obtain ⟨rs', e', o, hle, ha, hb⟩ :=
        readValue_agree m1 m2 ts1 rs1 e1 2 CM_TYPE_INT hm h2
      simp only [applyRead, cmReadI16, ha, hb]
      cases o <;> (dsimp only; exact ⟨rfl, rfl, rfl, rfl, le_trans h2 hle, hm⟩)
  | rU16 =>
      obtain ⟨rs', e', o, hle, ha, hb⟩ :=
        readValue_agree m1 m2 ts1 rs1 e1 2 CM_TYPE_UINT hm h2
      simp only [applyRead, cmReadU16, ha, hb]
      cases o <;> (dsimp only; exact ⟨rfl, rfl, rfl, rfl, le_trans h2 hle, hm⟩)
  | rI32 =>
      obtain ⟨rs', e', o, hle, ha, hb⟩ :=
        readValue_agree m1 m2 ts1 rs1 e1 4 CM_TYPE_INT hm h2
      simp only [applyRead, cmReadI32, ha, hb]
      cases o <;> (dsimp only; exact ⟨rfl, rfl, rfl, rfl, le_trans h2 hle, hm⟩)
  | rU32 =>
      obtain ⟨rs', e', o, hle, ha, hb⟩ :=
        readValue_agree m1 m2 ts1 rs1 e1 4 CM_TYPE_UINT hm h2
      simp only [applyRead, cmReadU32, ha, hb]
      cases o <;> (dsimp only; exact ⟨rfl, rfl, rfl, rfl, le_trans h2 hle, hm⟩)
  | rI64 =>
      obtain ⟨rs', e', o, hle, ha, hb⟩ :=
        readValue_agree m1 m2 ts1 rs1 e1 8 CM_TYPE_INT hm h2
      simp only [applyRead, cmReadI64, ha, hb]
      cases o <;> (dsimp only; exact ⟨rfl, rfl, rfl, rfl, le_trans h2 hle, hm⟩)
  | rU64 =>
      obtain ⟨rs', e', o, hle, ha, hb⟩ :=
        readValue_agree m1 m2 ts1 rs1 e1 8 CM_TYPE_UINT hm h2
      simp only [applyRead, cmReadU64, ha, hb]
      cases o <;> (dsimp only; exact ⟨rfl, rfl, rfl, rfl, le_trans h2 hle, hm⟩)
  | rF =>
      obtain ⟨rs', e', o, hle, ha, hb⟩ :=
        readValue_agree m1 m2 ts1 rs1 e1 4 CM_TYPE_FLOAT hm h2
      simp only [applyRead, cmReadF, ha, hb]
      cases o <;> (dsimp only; exact ⟨rfl, rfl, rfl, rfl, le_trans h2 hle, hm⟩)
  | rD =>
      obtain ⟨rs', e', o, hle, ha, hb⟩ :=
        readValue_agree m1 m2 ts1 rs1 e1 8 CM_TYPE_FLOAT hm h2
      simp only [applyRead, cmReadD, ha, hb]
      cases o <;> (dsimp only; exact ⟨rfl, rfl, rfl, rfl, le_trans h2 hle, hm⟩)
  | rBool =>
      obtain ⟨rs', e', o, hle, ha, hb⟩ :=
        readValue_agree m1 m2 ts1 rs1 e1 1 CM_TYPE_BOOL hm h2
      simp only [applyRead, cmReadBool, ha, hb]
      cases o <;> (dsimp only; exact ⟨rfl, rfl, rfl, rfl, le_trans h2 hle, hm⟩)
  | rChar =>
      obtain ⟨rs', e', o, hle, ha, hb⟩ :=
        readValue_agree m1 m2 ts1 rs1 e1 1 CM_TYPE_CHAR hm h2
      simp only [applyRead, cmReadChar, ha, hb]
      cases o <;> (dsimp only; exact ⟨rfl, rfl, rfl, rfl, le_trans h2 hle, hm⟩)
  | rArr t s mx =>
      obtain ⟨rs', e', bytes, cnt, hle, ha, hb⟩ :=
        cmReadTypedArray_agree m1 m2 ts1 rs1 e1 t s mx hm h2
      simp only [applyRead, ha, hb]
      exact ⟨by trivial, rfl, rfl, rfl, le_trans h2 hle, hm⟩
  | rPeek =>
      obtain ⟨e', sz, ha, hb⟩ := cmPeekArraySize_agree m1 m2 ts1 rs1 e1 hm h2
      simp only [applyRead, ha, hb]
      exact ⟨by trivial, rfl, rfl, rfl, h2, hm⟩
  | rPeekStr =>
      obtain ⟨e', n, ha, hb⟩ := cmPeekStringLength_agree m1 m2 ts1 rs1 e1 hm h2
      simp only [applyRead, ha, hb]
      exact ⟨by trivial, rfl, rfl, rfl, h2, hm⟩
  | rVer =>
      obtain ⟨rs', e', v, hle, ha, hb⟩ :=
        cmReadVersion_agree m1 m2 ts1 rs1 e1 hm h2
      simp only [applyRead, ha, hb]
      exact ⟨by trivial, rfl, rfl, rfl, le_trans h2 hle, hm⟩

theorem runReads_agree (rops : List ReadOp) :
    ∀ r1 r2 : Reader, Agree r1 r2 →
    (runReads r1 rops).2 = (runReads r2 rops).2 ∧
    Agree (runReads r1 rops).1 (runReads r2 rops).1 := by
  induction rops with
  | nil => intro r1 r2 h; exact ⟨rfl, h⟩
  | cons op rest ih =>
      intro r1 r2 h
      obtain ⟨hval, hag⟩ := applyRead_agree r1 r2 h op
      obtain ⟨hvs, hag'⟩ := ih (applyRead r1 op).1 (applyRead r2 op).1 hag
      exact ⟨by simp only [runReads, hval, hvs], hag'⟩

theorem cmGetWriter_fresh (buf : List Nat) (h2 : 2 ≤ buf.length) :
    cmGetWriter buf buf.length =
      ⟨[9, 7] ++ buf.drop 2, buf.length, 2, CM_ERROR_NONE⟩ := by
  unfold cmGetWriter
  rw [if_neg (by omega)]
  have : storeBytes buf 0 (toLE 2 ENDIAN_MARK) = [9, 7] ++ buf.drop 2 := by
    show storeBytes buf 0 [9, 7] = [9, 7] ++ buf.drop 2
    simp [storeBytes]
  rw [this]

theorem cmGetReader_native (E : List Nat) :
    cmGetReader ([9, 7] ++ E) (2 + E.length) =
      some ⟨[9, 7] ++ E, 2 + E.length, 2, CM_ERROR_NONE⟩ := by
  unfold cmGetReader
  rw [if_neg (by simp)]
  have hload : loadBytes ([9, 7] ++ E) 0 2 = [9, 7] := by
    simpa using loadBytes_append [] [9, 7] E
  have he : fromLE (loadBytes ([9, 7] ++ E) 0 2) = ENDIAN_MARK := by
    rw [hload]; decide
  simp only [he]
  rw [if_neg (by
    rw [not_or]
    exact ⟨by omega, by decide⟩)]
  rw [if_neg (by decide)]

theorem cmGetReader_foreign (items : List WItem)
    (hwf : ∀ it ∈ items, WFItem it)
    (h32 : (encItems items).length < 4294967296) :
    cmGetReader ([7, 9] ++ swapItems items) (2 + (swapItems items).length) =
      some ⟨[7, 9] ++ encItems items, 2 + (swapItems items).length, 2,
        CM_ERROR_NONE⟩ := by
  unfold cmGetReader
  rw [if_neg (by simp)]
  have hload : loadBytes ([7, 9] ++ swapItems items) 0 2 = [7, 9] := by
    simpa using loadBytes_append [] [7, 9] (swapItems items)
  have he : fromLE (loadBytes ([7, 9] ++ swapItems items) 0 2) =
      ENDIAN_INV_MARK := by
    rw [hload]; decide
  simp only [he]
  rw [if_neg (by
    rw [not_or]
    exact ⟨by omega, by decide⟩)]
  rw [if_pos (by decide)]
  have hdrop : ([7, 9] ++ swapItems items).drop 2 = swapItems items := by simp
  have hsz : 2 + (swapItems items).length - 2 = (encItems items).length := by
    rw [swapItems_length]
    omega
  rw [hdrop, hsz, convertEndianness_swapItems items hwf h32]
  have htake : ([7, 9] ++ swapItems items).take 2 = [7, 9] := by simp
  dsimp only
  rw [htake]

/-! ## Claim C5 -/

/-- C5 counterexample to the claim as stated: `cmWriteTypedArray` with
`itemSize = 3` succeeds with no error (claim C4's guard gap), producing the
message `[0x09,0x07, 0x00, 0,0,0,0]` whose single tag byte is the 0 sentinel.
Its foreign image swaps only the marker (the count field `0,0,0,0` is
unchanged by byte reversal). A reader over the original succeeds, but reader
construction over the foreign image fails with `NO_ENDIAN` because the
normalizer rejects the 0 flag — so reads on the two sides do not agree, and
the claim fails for this successfully-written message. -/
theorem c5_counterexample :
    (cmWriteTypedArray (cmGetWriter (List.replicate 16 0) 16)
        CM_TYPE_UINT 3 [] 0).firstError = CM_ERROR_NONE ∧
    (cmWriteTypedArray (cmGetWriter (List.replicate 16 0) 16)
        CM_TYPE_UINT 3 [] 0).buffer.take
      (cmWriteTypedArray (cmGetWriter (List.replicate 16 0) 16)
        CM_TYPE_UINT 3 [] 0).usedSize = [9, 7, 0, 0, 0, 0, 0] ∧
    (cmGetReader [9, 7, 0, 0, 0, 0, 0] 7).map Reader.firstError =
      some CM_ERROR_NONE ∧
    (cmGetReader [7, 9, 0, 0, 0, 0, 0] 7).map Reader.firstError =
      some CM_ERROR_NO_ENDIAN := by decide

/-- C5 (amended): for every message produced by a sequence of successful
writes in which every array write uses an aligned scalar type code, an element
size in {1,2,4,8} (char arrays with element size 1), and a count whose stored
value fits `uint32`, and whose buffer fits `uint32`: reader construction over
the foreign-endianness image (marker byte-swapped, every multi-byte field
byte-reversed, as built by `swapItems`) succeeds, and every sequence of read
operations returns the same values, the same errors and the same cursor as on
a reader over the original message. -/
theorem c5_endianness_equivalence (ops : List WOp) (buf : List Nat)
    (hgood : ∀ op ∈ ops, goodOp op)
    (hbuf : buf.length < 4294967296)
    (hfin : (runOps (cmGetWriter buf buf.length) ops).firstError =
      CM_ERROR_NONE) :
    ∃ rn rf : Reader,
      cmGetReader ((runOps (cmGetWriter buf buf.length) ops).buffer.take
          (runOps (cmGetWriter buf buf.length) ops).usedSize)
        ((runOps (cmGetWriter buf buf.length) ops).usedSize) = some rn ∧
      cmGetReader (toLE 2 ENDIAN_INV_MARK ++ swapItems (ops.map opToItem))
        (2 + (swapItems (ops.map opToItem)).length) = some rf ∧
      rn.firstError = CM_ERROR_NONE ∧ rf.firstError = CM_ERROR_NONE ∧
      rn.readSize = 2 ∧ rf.readSize = 2 ∧
      ∀ rops : List ReadOp,
        (runReads rf rops).2 = (runReads rn rops).2 ∧
        (runReads rf rops).1.firstError = (runReads rn rops).1.firstError ∧
        (runReads rf rops).1.readSize = (runReads rn rops).1.readSize := by
  have h2buf : 2 ≤ buf.length := by
    by_contra hlt
    refine runOps_sticky ops (cmGetWriter buf buf.length) ?_ hfin
    unfold cmGetWriter
    rw [if_pos (by omega)]
    simp [CM_ERROR_NO_SPACE, CM_ERROR_NONE]
  have hw0 := cmGetWriter_fresh buf h2buf
  have hcast : (⟨[9, 7] ++ buf.drop 2, buf.length, 2, CM_ERROR_NONE⟩ :
      Writer) = ⟨([9, 7] : List Nat) ++ buf.drop 2,
        (([9, 7] : List Nat) ++ buf.drop 2).length,
        ([9, 7] : List Nat).length, CM_ERROR_NONE⟩ := by
    rw [Writer.mk.injEq]
    refine ⟨rfl, by simp; omega, rfl, rfl⟩
  rw [hw0, hcast] at hfin ⊢
  obtain ⟨hle, hrun⟩ := runOps_encodes ops [9, 7] (buf.drop 2) hgood hfin
  rw [hrun]
  have hmsg : ((([9, 7] : List Nat) ++ encItems (ops.map opToItem)) ++
      (buf.drop 2).drop (encItems (ops.map opToItem)).length).take
        (([9, 7] : List Nat).length + (encItems (ops.map opToItem)).length) =
      [9, 7] ++ encItems (ops.map opToItem) := by
    have hl : (([9, 7] : List Nat) ++ encItems (ops.map opToItem)).length =
        ([9, 7] : List Nat).length + (encItems (ops.map opToItem)).length := by
      rw [List.length_append]
    rw [← hl, List.take_left]
  rw [hmsg]
  have hwf : ∀ it ∈ ops.map opToItem, WFItem it := by
    intro it hit
    obtain ⟨op, hop, rfl⟩ := List.mem_map.mp hit
    exact goodOp_WFItem op (hgood op hop)
  have h32 : (encItems (ops.map opToItem)).length < 4294967296 := by
    have := List.length_drop 2 buf
    omega
  have hlen97 : ([9, 7] : List Nat).length = 2 := rfl
  rw [hlen97]
  have h79 : toLE 2 ENDIAN_INV_MARK = [7, 9] := by decide
  rw [h79]
  refine ⟨⟨[9, 7] ++ encItems (ops.map opToItem),
      2 + (encItems (ops.map opToItem)).length, 2, CM_ERROR_NONE⟩,
    ⟨[7, 9] ++ encItems (ops.map opToItem),
      2 + (swapItems (ops.map opToItem)).length, 2, CM_ERROR_NONE⟩,
    cmGetReader_native (encItems (ops.map opToItem)),
    cmGetReader_foreign (ops.map opToItem) hwf h32,
    rfl, rfl, rfl, rfl, ?_⟩
  intro rops
  have hag : Agree
      ⟨[7, 9] ++ encItems (ops.map opToItem),
        2 + (swapItems (ops.map opToItem)).length, 2, CM_ERROR_NONE⟩
      ⟨[9, 7] ++ encItems (ops.map opToItem),
        2 + (encItems (ops.map opToItem)).length, 2, CM_ERROR_NONE⟩ := by
    refine ⟨?_, rfl, rfl, le_rfl, by simp⟩
    dsimp only
    rw [swapItems_length]
  obtain ⟨hvals, hfinAg⟩ := runReads_agree rops _ _ hag
  exact ⟨hvals, hfinAg.2.2.1, hfinAg.2.1⟩

/-- Witness for C5: a concrete sequence — a `uint16` write, a 2-element
`uint32` array write, a version write and a char-array write — runs with no
error in a 64-byte buffer, and the theorem's conclusion holds for it. -/
theorem c5_endianness_equivalence_witness :
    (∀ op ∈ [WOp.scalar (.u16 513),
        WOp.arr CM_TYPE_UINT 4 [1, 0, 0, 0, 2, 0, 0, 0] 2,
        WOp.ver 7, WOp.arr CM_TYPE_CHAR 1 [65, 66] 2], goodOp op) ∧
    (runOps (cmGetWriter (List.replicate 64 0) (List.replicate 64 0).length)
      [WOp.scalar (.u16 513),
        WOp.arr CM_TYPE_UINT 4 [1, 0, 0, 0, 2, 0, 0, 0] 2,
        WOp.ver 7, WOp.arr CM_TYPE_CHAR 1 [65, 66] 2]).firstError =
      CM_ERROR_NONE ∧
    (∃ rn rf : Reader,
      cmGetReader ((runOps (cmGetWriter (List.replicate 64 0)
            (List.replicate 64 0).length)
          [WOp.scalar (.u16 513),
            WOp.arr CM_TYPE_UINT 4 [1, 0, 0, 0, 2, 0, 0, 0] 2,
            WOp.ver 7, WOp.arr CM_TYPE_CHAR 1 [65, 66] 2]).buffer.take
          (runOps (cmGetWriter (List.replicate 64 0)
            (List.replicate 64 0).length)
          [WOp.scalar (.u16 513),
            WOp.arr CM_TYPE_UINT 4 [1, 0, 0, 0, 2, 0, 0, 0] 2,
            WOp.ver 7, WOp.arr CM_TYPE_CHAR 1 [65, 66] 2]).usedSize)
        ((runOps (cmGetWriter (List.replicate 64 0)
            (List.replicate 64 0).length)
          [WOp.scalar (.u16 513),
            WOp.arr CM_TYPE_UINT 4 [1, 0, 0, 0, 2, 0, 0, 0] 2,
            WOp.ver 7, WOp.arr CM_TYPE_CHAR 1 [65, 66] 2]).usedSize) =
        some rn ∧
      cmGetReader (toLE 2 ENDIAN_INV_MARK ++
          swapItems ([WOp.scalar (.u16 513),
            WOp.arr CM_TYPE_UINT 4 [1, 0, 0, 0, 2, 0, 0, 0] 2,
            WOp.ver 7, WOp.arr CM_TYPE_CHAR 1 [65, 66] 2].map opToItem))
        (2 + (swapItems ([WOp.scalar (.u16 513),
            WOp.arr CM_TYPE_UINT 4 [1, 0, 0, 0, 2, 0, 0, 0] 2,
            WOp.ver 7, WOp.arr CM_TYPE_CHAR 1 [65, 66] 2].map
              opToItem)).length) = some rf ∧
      rn.firstError = CM_ERROR_NONE ∧ rf.firstError = CM_ERROR_NONE ∧
      rn.readSize = 2 ∧ rf.readSize = 2 ∧
      ∀ rops : List ReadOp,
        (runReads rf rops).2 = (runReads rn rops).2 ∧
        (runReads rf rops).1.firstError = (runReads rn rops).1.firstError ∧
        (runReads rf rops).1.readSize = (runReads rn rops).1.readSize) := by
  have hg : ∀ op ∈ [WOp.scalar (.u16 513),
      WOp.arr CM_TYPE_UINT 4 [1, 0, 0, 0, 2, 0, 0, 0] 2,
      WOp.ver 7, WOp.arr CM_TYPE_CHAR 1 [65, 66] 2], goodOp op := by
    intro op hop
    simp only [List.mem_cons, List.not_mem_nil, or_false] at hop
    rcases hop with rfl | rfl | rfl | rfl
    · trivial
    · exact ⟨by decide, by decide, by decide, by decide⟩
    · trivial
    · exact ⟨by decide, by decide, by decide, by decide⟩
  refine ⟨hg, by decide, ?_⟩
  exact c5_endianness_equivalence
    [WOp.scalar (.u16 513), WOp.arr CM_TYPE_UINT 4 [1, 0, 0, 0, 2, 0, 0, 0] 2,
      WOp.ver 7, WOp.arr CM_TYPE_CHAR 1 [65, 66] 2]
    (List.replicate 64 0) hg (by decide) (by decide)

end CompositeMessage
